import Mathlib

/-!
# Verification of the project-devore pub/sub core

A shallow embedding of the Record data model, topic matcher, runner state,
runner scheduler loop, stage controller and persistence sink of the
`project-devore` repository (crates `pubsub` and `quad`), together with
theorems settling the specification claims about them.

Machine strings are modelled as Lean `String` and all character-level
operations are spelled out on `String.data` (`List Char`) so that every
definition evaluates by kernel reduction.
-/

namespace Devore

/-! ## Character-list string primitives

Executable models of the Rust `str` operations used by the sources:
`starts_with`, `contains` (substring search) and the `*`-wildcard regex
built by `pattern.replace('*', ".*")`.
-/

/-- `l` begins with `p` (model of Rust `str::starts_with`). -/
def listStartsWith : List Char → List Char → Bool
  | [], _ => true
  | _ :: _, [] => false
  | p :: ps, c :: cs => p == c && listStartsWith ps cs

/-- Drop the part of `hay` up to and including the first occurrence of
`needle`; `none` when `needle` does not occur.  This is the search core of
Rust `str::contains` and of an unanchored regex literal match. -/
def findDrop (needle : List Char) : List Char → Option (List Char)
  | [] => if listStartsWith needle [] then some [] else none
  | c :: cs =>
    if listStartsWith needle (c :: cs) then some ((c :: cs).drop needle.length)
    else findDrop needle cs

/-- `hay` contains `needle` as a contiguous substring
(model of Rust `str::contains(&str)`). -/
def listContainsSub (hay needle : List Char) : Bool :=
  (findDrop needle hay).isSome

/-- `l` ends with `s`. -/
def listEndsWith (s l : List Char) : Bool :=
  listStartsWith s.reverse l.reverse

/-- Split a pattern at every `*` character (the literal pieces between the
wildcards); the model of what `pattern.replace('*', ".*")` turns into a
regex: piece₀ `.*` piece₁ `.*` … `.*` pieceₖ. -/
def splitStar : List Char → List (List Char)
  | [] => [[]]
  | c :: cs =>
    if c == '*' then [] :: splitStar cs
    else
      match splitStar cs with
      | h :: rest => (c :: h) :: rest
      | [] => [[c]]

/-- Unanchored search for the literal pieces in order: the model of Rust
`Regex::is_match` for the regex piece₀ `.*` piece₁ `.*` … pieceₖ.
Faithful for patterns whose non-`*` characters carry no other regex
metacharacter (every pattern the repository uses). -/
def searchPieces : List (List Char) → List Char → Bool
  | [], _ => true
  | n :: ns, hay =>
    match findDrop n hay with
    | some rest => searchPieces ns rest
    | none => false

/-- Anchored (full-string) match of piece₀ `.*` piece₁ `.*` … pieceₖ
against `hay`: `hay` must begin with piece₀, end with pieceₖ, and contain
the middle pieces in order between them.  This models "test full-string
match" of the same regex, as the specification's rule 2 demands. -/
def fullPieces : List (List Char) → List Char → Bool
  | [], hay => hay.isEmpty
  | [n], hay => hay == n
  | n :: ns, hay =>
    listStartsWith n hay && middlePieces ns (hay.drop n.length)
where
  /-- After the anchored head piece: middle pieces are searched in order,
  and the final piece must close the string. -/
  middlePieces : List (List Char) → List Char → Bool
  | [], hay => hay.isEmpty
  | [n], hay => listEndsWith n hay
  | n :: ns, hay =>
    match findDrop n hay with
    | some rest => middlePieces ns rest
    | none => false

/-! String-level wrappers used by the embedded sources. -/

/-- Rust `topic.starts_with(pattern)`. -/
def strStartsWith (hay pre : String) : Bool :=
  listStartsWith pre.data hay.data

/-- Rust `topic.contains(pattern)` (substring). -/
def strContains (hay needle : String) : Bool :=
  listContainsSub hay.data needle.data

/-- Rust `pattern.contains('*')`. -/
def hasStar (p : String) : Bool := p.data.contains '*'

/-- Rust `pattern.contains('/')`. -/
def hasSlash (p : String) : Bool := p.data.contains '/'

/-! ## Topic matcher

`src/pubsub/src/tasks/runner.rs` lines 328–358 and
`src/pubsub/src/tasks/state.rs` lines 32–53.
-/

/-- `Runner::pattern_matches` (runner.rs:352–358): compile
`pattern.replace('*', ".*")` and run an **unanchored** `is_match` on the
topic.  (The `Err` branch of `Regex::new` cannot fire for the star-literal
patterns the model covers.) -/
def pattern_matches (pattern topic : String) : Bool :=
  searchPieces (splitStar pattern.data) topic.data

/-- The per-queue test of `Runner::route_message_to_subscribers`
(runner.rs:338–341): a single boolean disjunction, *not* a first-rule-wins
ladder. -/
def routeMatches (pattern topic : String) : Bool :=
  strStartsWith topic pattern
    || (hasStar pattern && pattern_matches pattern topic)
    || (hasSlash pattern && strContains topic pattern)

/-- The per-key test of `RunnerState::query_topics` (state.rs:34–51): an
`if` / `else if` chain, so a star pattern whose regex search fails is *not*
retried against the path rule. -/
def queryTopicMatches (query topicKey : String) : Bool :=
  if strStartsWith topicKey query then true
  else if hasStar query then
    searchPieces (splitStar query.data) topicKey.data
  else if hasSlash query && strContains topicKey query then true
  else false

/-- The specification's four-rule reference ladder (§4.2), first rule that
applies wins; rule 2 is an **anchored** full-string regex match. -/
def matchesReference (pattern topic : String) : Bool :=
  if pattern == topic then true
  else if hasStar pattern then fullPieces (splitStar pattern.data) topic.data
  else if hasSlash pattern then
    strContains topic pattern || strStartsWith topic pattern
  else strStartsWith topic pattern

/-! ## Record data model

`src/pubsub/src/message/record.rs`.  A `Record` wraps an arrow
`RecordBatch`: named columns, a schema-level string metadata map and a row
count.  Columns carry their field's data type and nullability; struct
columns hold named child columns, mirroring `StructArray`.
-/

/-- Scalar cell values stored in leaf columns. -/
inductive Val where
  | vint : Int → Val
  | vstr : String → Val
  | vbool : Bool → Val
  | vnull : Val
deriving DecidableEq

/-- The non-struct arrow data types the repository stores (scalars and
lists of scalars).  Lists fall into the `_` arm of the source's matches on
`DataType`, exactly like scalars, so they share the `leaf` constructor. -/
inductive PrimType where
  | int64 : PrimType
  | float64 : PrimType
  | utf8 : PrimType
  | boolean : PrimType
  | listOf : PrimType → PrimType
deriving DecidableEq

mutual
/-- One column: a leaf (any non-struct `DataType`, with the field's
nullability and the per-row values) or a `DataType::Struct` column whose
`StructArray` holds named child columns. -/
inductive Col where
  | leaf : PrimType → Bool → List Val → Col
  | strct : Bool → Cols → Col
deriving DecidableEq

/-- The named child columns of a `StructArray`, in field order. -/
inductive Cols where
  | nil : Cols
  | cons : String → Col → Cols → Cols
deriving DecidableEq
end

/-- Convert child columns to a plain list. -/
def colsToList : Cols → List (String × Col)
  | .nil => []
  | .cons n c rest => (n, c) :: colsToList rest

/-- Convert a plain field list to child columns. -/
def listToCols : List (String × Col) → Cols
  | [] => .nil
  | (n, c) :: rest => .cons n c (listToCols rest)

/-- `Record` / `RecordBatch`: top-level named columns, schema metadata
(string-keyed association list, first binding wins) and the row count. -/
structure Rec where
  cols : List (String × Col)
  meta : List (String × String)
  nrows : Nat
deriving DecidableEq

/-- Association-list lookup used for the `HashMap`s of the sources. -/
def lookupAssoc {κ α : Type} [DecidableEq κ] (l : List (κ × α)) (k : κ) : Option α :=
  match l with
  | [] => none
  | (k', v) :: rest => if k' = k then some v else lookupAssoc rest k

/-- `schema.metadata().get(key)`. -/
def Rec.getMeta (r : Rec) (k : String) : Option String :=
  lookupAssoc r.meta k

/-! ### Flatten (record.rs:19–85) -/

mutual
/-- The body of the loop of `flatten_struct_column` for one child field:
a struct child recurses with a dotted prefix, anything else becomes one
flat column keeping its own data type and nullability
(`Field::new(&col_name, field.data_type().clone(), field.is_nullable())`). -/
def flattenChild (pre name : String) (c : Col) : List (String × Col) :=
  let colName := if pre.isEmpty then name else pre ++ "." ++ name
  match c with
  | .leaf t nl vs => [(colName, Col.leaf t nl vs)]
  | .strct _ children => flatten_struct_column colName children

/-- `flatten_struct_column` (record.rs:19–48): expand a struct column into
flat columns whose names join the path with `.`. -/
def flatten_struct_column (pre : String) : Cols → List (String × Col)
  | .nil => []
  | .cons name c rest => flattenChild pre name c ++ flatten_struct_column pre rest
end

/-- The loop of `flatten_record_batch` over the top-level fields
(record.rs:58–77): struct columns are expanded with their field name as
prefix, all other columns pass through unchanged. -/
def flattenTop : List (String × Col) → List (String × Col)
  | [] => []
  | (name, c) :: rest =>
    (match c with
     | .strct _ children => flatten_struct_column name children
     | .leaf t nl vs => [(name, Col.leaf t nl vs)]) ++ flattenTop rest

/-- `flatten_record_batch` (record.rs:54–85).  Schema metadata is copied
(`Schema::new_with_metadata(…, batch.schema().metadata().clone())`) and the
row count is untouched.  The source's error paths (a failed downcast and a
failed `RecordBatch::try_new`) cannot fire in the typed embedding, so the
model is total. -/
def flatten_record_batch (r : Rec) : Rec :=
  { cols := flattenTop r.cols, meta := r.meta, nrows := r.nrows }

/-! ### Unflatten (record.rs:91–240)

`unflatten_record_batch` returns the batch unchanged when no field name
contains a `.`; otherwise it keeps the dot-free fields (in order), groups
the dotted fields by the part before the first dot, and rebuilds one
struct column per group, appended after the dot-free fields.  The source
iterates a `HashMap` whose order is unspecified; the model determinizes it
to first-occurrence order.
-/

/-- Split a name at its first `.`: the source computes
`root = parts[0]` and `local = parts[1..].join(".")` from
`name.split('.')`, which is exactly (before-first-dot, after-first-dot). -/
def splitDotL : List Char → Option (List Char × List Char)
  | [] => none
  | c :: cs =>
    if c = '.' then some ([], cs)
    else
      match splitDotL cs with
      | some (r, rest) => some (c :: r, rest)
      | none => none

/-- String wrapper for `splitDotL`; `none` iff the name has no dot
(`field_name.contains(PATH_SEPARATOR)` is false). -/
def splitDot (s : String) : Option (String × String) :=
  match splitDotL s.data with
  | some (r, rest) => some (⟨r⟩, ⟨rest⟩)
  | none => none

/-- Append an entry to the group of `root`, creating the group at the end
on first occurrence (determinizing the source's `HashMap` grouping). -/
def addToGroups (gs : List (String × List (String × Col))) (root : String)
    (e : String × Col) : List (String × List (String × Col)) :=
  match gs with
  | [] => [(root, [e])]
  | (r, es) :: rest =>
    if r = root then (r, es ++ [e]) :: rest
    else (r, es) :: addToGroups rest root e

/-- One step of the categorization pass: a dot-free field is appended to
the direct fields, a dotted field joins the group of its root under its
local name. -/
def catStep (acc : List (String × Col) × List (String × List (String × Col)))
    (nc : String × Col) :
    List (String × Col) × List (String × List (String × Col)) :=
  match splitDot nc.1 with
  | none => (acc.1 ++ [nc], acc.2)
  | some rl => (acc.1, addToGroups acc.2 rl.1 (rl.2, nc.2))

/-- The categorization pass shared by record.rs:107–131 (top level) and
record.rs:143–170 (inside `build_nested_struct`): direct (dot-free) fields
stay in order; each dotted field joins the group of its root under its
local name. -/
def categorize (fields : List (String × Col)) :
    List (String × Col) × List (String × List (String × Col)) :=
  fields.foldl catStep ([], [])

/-- Termination measure: total length of the field names. -/
def namesLen : List (String × Col) → Nat
  | [] => 0
  | (n, _) :: rest => n.data.length + namesLen rest

/-- Auxiliary measure: each group entry weighs its local name plus one
(the dot it lost). -/
def entriesLen : List (String × Col) → Nat
  | [] => 0
  | (n, _) :: rest => n.data.length + 1 + entriesLen rest

/-- Auxiliary measure over a whole group list. -/
def groupsLen : List (String × List (String × Col)) → Nat
  | [] => 0
  | (_, es) :: rest => entriesLen es + groupsLen rest

/-! Termination support facts (proof-valued). -/

/-- Recursion engine for `build_nested_struct`, structural on a name-length
bound so that it evaluates by kernel reduction.  The `0` arm is never
reached when the bound exceeds `namesLen fields`, because every group's
local names lose at least their dot (`categorize_groups_shrink`); theorem
`build_nested_struct_eq` below recovers the source's recursion equation. -/
def buildNestedFuel : Nat → List (String × Col) → List (String × Col)
  | 0, _ => []
  | fuel + 1, fields =>
    let dg := categorize fields
    dg.1 ++ dg.2.map (fun rg =>
      (rg.1, Col.strct true (listToCols (buildNestedFuel fuel rg.2))))

/-- `build_nested_struct` (record.rs:134–196): direct fields (no dot in
their local name) keep their array and order; each group of dotted fields
becomes one struct field appended after them, built recursively, with the
struct field forced nullable (`true, // Usually struct fields can be
nullable`) and no validity bitmap. -/
def build_nested_struct (fields : List (String × Col)) : List (String × Col) :=
  buildNestedFuel (namesLen fields + 1) fields

/-- `unflatten_record_batch` (record.rs:91–240): identity when no field
name contains a dot; otherwise direct fields first (in order), then one
rebuilt struct column per root group.  Metadata is copied and the row
count is untouched; the source's error paths (`StructArray::try_new`,
`RecordBatch::try_new`) cannot fire in the typed embedding. -/
def unflatten_record_batch (r : Rec) : Rec :=
  if r.cols.all (fun nc => (splitDot nc.1).isNone) then r
  else { cols := build_nested_struct r.cols, meta := r.meta, nrows := r.nrows }

/-! ### Slicing (record.rs:442–451, arrow `RecordBatch::slice`) -/

mutual
/-- Slice one column to rows `off .. off+len`. -/
def sliceCol (off len : Nat) : Col → Col
  | .leaf t nl vs => .leaf t nl ((vs.drop off).take len)
  | .strct nl cs => .strct nl (sliceCols off len cs)

/-- Slice child columns. -/
def sliceCols (off len : Nat) : Cols → Cols
  | .nil => .nil
  | .cons n c rest => .cons n (sliceCol off len c) (sliceCols off len rest)
end

/-- arrow `RecordBatch::slice(offset, length)`: same schema (and metadata),
rows `offset .. offset+length`.  Callers below only reach it with
`offset + length ≤ num_rows` (arrow asserts this). -/
def Rec.slice (r : Rec) (off len : Nat) : Rec :=
  { cols := r.cols.map (fun nc => (nc.1, sliceCol off len nc.2)),
    meta := r.meta, nrows := len }

/-- `Record::get_n_latest_rows` (record.rs:442–451): slices
`(num_rows() - n, n)`.  `num_rows() - n` is a Rust `usize` subtraction:
when `n > num_rows` it panics in debug builds, and in release builds wraps
so that the `slice` bounds assertion panics; `none` models that panic. -/
def get_n_latest_rows (r : Rec) (n : Nat) : Option Rec :=
  if n ≤ r.nrows then some (r.slice (r.nrows - n) n) else none

/-! ### Flags and topics (record.rs:399–440) -/

/-- `flag` metadata values (`RecordFlag`). -/
inductive RecordFlag where
  | PublishPacket : RecordFlag
  | SubscribePacket : RecordFlag
deriving DecidableEq

/-- `RecordFlag::from_str` (record.rs:259–269). -/
def parseFlag : String → Option RecordFlag
  | "PublishPacket" => some .PublishPacket
  | "SubscribePacket" => some .SubscribePacket
  | _ => none

/-- `RecordError` (record.rs:271–281). -/
inductive RecordError where
  | TopicMetadataNotSet : RecordError
  | FlagMetadataNotSet : RecordError
deriving DecidableEq

/-- `Record::try_get_topic` (record.rs:412–419). -/
def Rec.try_get_topic (r : Rec) : Except RecordError String :=
  match r.getMeta "topic" with
  | some t => .ok t
  | none => .error .TopicMetadataNotSet

/-- `Record::get_flag` (record.rs:433–440): a missing `flag` key is the
`FlagMetadataNotSet` error; a present but unparsable value hits
`RecordFlag::from_str(s).unwrap()` — a panic, modelled as `none`. -/
def Rec.get_flag (r : Rec) : Option (Except RecordError RecordFlag) :=
  match r.getMeta "flag" with
  | none => some (.error .FlagMetadataNotSet)
  | some s => (parseFlag s).map (fun f => .ok f)

/-- `Record::set_topic` (record.rs:399–410): rebuild the schema with the
`topic` metadata key inserted (overwriting an existing binding). -/
def Rec.set_topic (r : Rec) (topic : String) : Rec :=
  { r with meta := (r.meta.filter (fun kv => kv.1 ≠ "topic")) ++ [("topic", topic)] }

/-- `Record::set_flag` (record.rs:421–431). -/
def Rec.set_flag (r : Rec) (f : RecordFlag) : Rec :=
  { r with meta := (r.meta.filter (fun kv => kv.1 ≠ "flag"))
      ++ [("flag", if f = .PublishPacket then "PublishPacket" else "SubscribePacket")] }

/-! ### Schema containment and concatenation

arrow's `concat_batches(&schema, batches)` admits each batch whose schema
is *contained* in the target schema (`Schema::contains`): field-wise
containment (equal names and types, with the target allowed to relax
nullability) plus the batch's schema metadata being a subset of the
target's.  `Record::concat` (record.rs:390–397) passes `self`'s schema as
the target, so the output schema — metadata included — is `self`'s.
-/

mutual
/-- arrow `Field::contains` / `DataType::contains` on one column: equal
data type (recursively for structs), the target may relax nullability. -/
def colContains : Col → Col → Bool
  | .leaf t1 n1 _, .leaf t2 n2 _ => t1 == t2 && (n1 || !n2)
  | .strct n1 cs1, .strct n2 cs2 => (n1 || !n2) && colsContain cs1 cs2
  | .leaf _ _ _, .strct _ _ => false
  | .strct _ _, .leaf _ _ _ => false

/-- arrow `Fields::contains` on child fields: same length, pointwise
name equality and containment. -/
def colsContain : Cols → Cols → Bool
  | .nil, .nil => true
  | .cons n1 c1 r1, .cons n2 c2 r2 => n1 == n2 && colContains c1 c2 && colsContain r1 r2
  | .nil, .cons _ _ _ => false
  | .cons _ _ _, .nil => false
end

/-- arrow `Fields::contains` on the top-level fields. -/
def fieldsContain : List (String × Col) → List (String × Col) → Bool
  | [], [] => true
  | (n1, c1) :: r1, (n2, c2) :: r2 => n1 == n2 && colContains c1 c2 && fieldsContain r1 r2
  | [], _ :: _ => false
  | _ :: _, [] => false

/-- `other.metadata ⊆ self.metadata` with equal values (the metadata half
of arrow `Schema::contains`). -/
def metaSubset (sub sup : List (String × String)) : Bool :=
  sub.all (fun kv => lookupAssoc sup kv.1 == some kv.2)

/-- arrow `Schema::contains` of `a`'s schema over `b`'s. -/
def schemaContains (a b : Rec) : Bool :=
  fieldsContain a.cols b.cols && metaSubset b.meta a.meta

mutual
/-- Concatenate the arrays of two columns; shape (type, nullability) is
taken from the target schema's column, i.e. the first argument. -/
def concatCol : Col → Col → Col
  | .leaf t n vs, .leaf _ _ vs2 => .leaf t n (vs ++ vs2)
  | .leaf t n vs, .strct _ _ => .leaf t n vs
  | .strct n cs, .strct _ cs2 => .strct n (concatColsPair cs cs2)
  | .strct n cs, .leaf _ _ _ => .strct n cs

/-- Concatenate child columns pointwise (equal length is guaranteed by the
containment check; the mixed arms are unreachable). -/
def concatColsPair : Cols → Cols → Cols
  | .nil, _ => .nil
  | .cons n c r, .nil => .cons n c r
  | .cons n c r, .cons _ c2 r2 => .cons n (concatCol c c2) (concatColsPair r r2)
end

/-- Concatenate the top-level columns pointwise. -/
def concatFields : List (String × Col) → List (String × Col) → List (String × Col)
  | [], _ => []
  | (n, c) :: r, [] => (n, c) :: r
  | (n, c) :: r, (_, c2) :: r2 => (n, concatCol c c2) :: concatFields r r2

/-- arrow `concat_batches(&a.schema().clone(), [a, b])` as invoked by
`Record::concat` (record.rs:390–397) and `append_record_batch`
(state.rs:88–94): both inputs must be contained in the target schema (the
first batch's); the output carries the target schema — its fields *and*
its metadata — with the rows of `a` followed by the rows of `b`. -/
def concat_batches (a b : Rec) : Except String Rec :=
  if schemaContains a a && schemaContains a b then
    .ok { cols := concatFields a.cols b.cols, meta := a.meta,
          nrows := a.nrows + b.nrows }
  else .error "batches have different schemas"

/-- `Record::concat` (record.rs:390–397). -/
def Rec.concat (a b : Rec) : Except String Rec :=
  concat_batches a b

/-! ## RunnerState

`src/pubsub/src/tasks/state.rs`.  `topic_data: HashMap<String, RecordBatch>`
is modelled as an association list with distinct keys (theorems assume key
distinctness where it matters), insertion appending at the end.
-/

/-- Replace the binding of `key` in place (model of `HashMap` overwrite
for a present key). -/
def replaceAssoc {α : Type} : List (String × α) → String → α → List (String × α)
  | [], _, _ => []
  | (k, v) :: rest, key, nv =>
    if k = key then (key, nv) :: rest else (k, v) :: replaceAssoc rest key nv

/-- Remove the binding of `key` (model of `HashMap::remove`). -/
def removeAssoc {α : Type} : List (String × α) → String → List (String × α)
  | [], _ => []
  | (k, v) :: rest, key =>
    if k = key then rest else (k, v) :: removeAssoc rest key

/-- `RunnerState` (state.rs:9–11). -/
structure RunnerState where
  topic_data : List (String × Rec)
deriving DecidableEq

/-- `RunnerState::get_topics` (state.rs:27–29). -/
def RunnerState.get_topics (st : RunnerState) : List String :=
  st.topic_data.map Prod.fst

/-- `RunnerState::query_topics` (state.rs:32–53): every stored key passing
the `if`/`else if` chain, in storage order. -/
def RunnerState.query_topics (st : RunnerState) (query : String) : List String :=
  st.get_topics.filter (fun k => queryTopicMatches query k)

/-- `RunnerState::get_n_latest_topic_data` (state.rs:73–78): missing topic
is the `Topic not found` error; the slice start `num_rows() - n` has the
same `usize` underflow panic as `get_n_latest_rows`, modelled as `none`. -/
def RunnerState.get_n_latest_topic_data (st : RunnerState) (topic : String)
    (n : Nat) : Option (Except String Rec) :=
  match lookupAssoc st.topic_data topic with
  | none => some (.error "Topic not found")
  | some rb =>
    if n ≤ rb.nrows then some (.ok (rb.slice (rb.nrows - n) n)) else none

/-- `RunnerState::append_record_batch` (state.rs:80–98): vacant entry
inserts the batch, occupied entry concatenates under the current entry's
schema (failure is the source's `?`-propagated concat error, spec name
`IncompatibleAppend`). -/
def RunnerState.append_record_batch (st : RunnerState) (topic : String)
    (rb : Rec) : Except String RunnerState :=
  match lookupAssoc st.topic_data topic with
  | none => .ok ⟨st.topic_data ++ [(topic, rb)]⟩
  | some cur =>
    match concat_batches cur rb with
    | .ok combined => .ok ⟨replaceAssoc st.topic_data topic combined⟩
    | .error e => .error e

/-- `RunnerState::apply_packet` (state.rs:20–25).  The source reads the
topic with `metadata().get("topic").unwrap()`: a record without a `topic`
metadata key panics, modelled as `none`. -/
def RunnerState.apply_packet (st : RunnerState) (rb : Rec) :
    Option (Except String RunnerState) :=
  match rb.getMeta "topic" with
  | some topic => some (st.append_record_batch topic rb)
  | none => none

/-- `topic_data` row count of one topic (`get_topic_row_count`, called by
logging.rs; the accessor itself is absent from src/ — spec §4.4:
`row_count(topic) -> n?`). -/
def RunnerState.rowCount (st : RunnerState) (topic : String) : Option Nat :=
  (lookupAssoc st.topic_data topic).map Rec.nrows

/-! ## Meta control and task identity

`src/pubsub/src/tasks/meta_control.rs` and `src/pubsub/src/tasks/info.rs`.
`TaskInfo` equality and hashing are by `id`, a `DefaultHasher` hash of the
name truncated to `u32`; the model identifies `id` with the name itself
(faithful up to hash collisions), so every name-keyed set below stores
names.
-/

/-- `TaskInfo` (info.rs:3–27). -/
structure TaskInfo where
  name : String
  insta_spawn : Bool
deriving DecidableEq

/-- `TaskInfo::new` (info.rs:11–22). -/
def TaskInfo.new (name : String) : TaskInfo :=
  ⟨name, false⟩

/-- `TaskInfo::with_insta_spawn` (info.rs:23–26). -/
def TaskInfo.with_insta_spawn (t : TaskInfo) : TaskInfo :=
  { t with insta_spawn := true }

/-- `MetaCommand` (meta_control.rs:5–8). -/
inductive MetaCommand where
  | SpawnTask : MetaCommand
  | KillTask : MetaCommand
deriving DecidableEq

/-- `MetaMessage` (meta_control.rs:9–18). -/
structure MetaMessage where
  command : MetaCommand
  task_info : TaskInfo
deriving DecidableEq

/-! ## Runner message drain loop

`src/pubsub/src/tasks/runner.rs` lines 237–276: after one task's `run`,
the runner drains its record channel, handling every fallible step by
logging an `error!` and moving on.
-/

/-- A subscription queue (subscription_queue.rs): owning task, pattern,
FIFO contents. -/
structure SubQueue where
  task_name : String
  pattern : String
  items : List Rec
deriving DecidableEq

/-- `Runner::route_message_to_subscribers` (runner.rs:328–349): push the
record onto every queue whose pattern passes the routing test.  The
source's `Result` return is always `Ok`. -/
def route_message_to_subscribers (queues : List SubQueue) (topic : String)
    (msg : Rec) : List SubQueue :=
  queues.map (fun q =>
    if routeMatches q.pattern topic then { q with items := q.items ++ [msg] }
    else q)

/-- The error values of `RunnerState::apply_record` named by spec §7. -/
inductive ApplyErr where
  | FlagNotSet : ApplyErr
  | TopicNotSet : ApplyErr
  | NotPublishPacket : ApplyErr
  | IncompatibleAppend : ApplyErr
deriving DecidableEq

/-- Modelled from the spec: `RunnerState::apply_record`, the method the
runner invokes (runner.rs:151 and 250), is absent from src/ — state.rs of
this snapshot still carries the older `Packet`-typed `apply_packet`.
Spec §4.4: "`apply(record)` — require `flag = PublishPacket` and `topic`
set; `concat` into existing entry or insert fresh.  Schema mismatch on
concat is `IncompatibleAppend`"; §7 names the error values `FlagNotSet`
and `TopicNotSet`. -/
def RunnerState.apply_record (st : RunnerState) (r : Rec) :
    Except ApplyErr RunnerState :=
  match r.getMeta "flag" with
  | none => .error .FlagNotSet
  | some f =>
    if f ≠ "PublishPacket" then .error .NotPublishPacket
    else
      match r.getMeta "topic" with
      | none => .error .TopicNotSet
      | some topic =>
        match st.append_record_batch topic r with
        | .ok st' => .ok st'
        | .error _ => .error .IncompatibleAppend

/-- One `error!` line of the drain loop. -/
inductive RunnerLogEntry where
  | flagError : RecordError → RunnerLogEntry
  | topicError : RecordError → RunnerLogEntry
  | applyError : ApplyErr → RunnerLogEntry
deriving DecidableEq

/-- The runner-side state the drain loop threads: topic store, fan-out
queues, deferred subscription registrations and the error log. -/
structure DrainState where
  state : RunnerState
  queues : List SubQueue
  newSubs : List (String × String)
  errLog : List RunnerLogEntry
deriving DecidableEq

/-- One iteration of `while let Ok(msg) = out_channel.1.recv()`
(runner.rs:237–276) for the task named `task`:

* `get_flag` error → log, next message;
* subscribe → record `(task, topic)` for deferred registration, a topic
  error is logged;
* publish → `apply_record` (an error is logged and — `continue` — skips
  routing), then `try_get_topic` and fan-out.

`none` models the one panic in this loop, `RecordFlag::from_str(s).unwrap()`
on a present-but-unparsable `flag` value (record.rs:438). -/
def processOutMessage (task : String) (ds : DrainState) (msg : Rec) :
    Option DrainState :=
  match msg.get_flag with
  | none => none
  | some (.error e) => some { ds with errLog := ds.errLog ++ [.flagError e] }
  | some (.ok .SubscribePacket) =>
    match msg.try_get_topic with
    | .ok topic => some { ds with newSubs := ds.newSubs ++ [(task, topic)] }
    | .error e => some { ds with errLog := ds.errLog ++ [.topicError e] }
  | some (.ok .PublishPacket) =>
    match ds.state.apply_record msg with
    | .error e => some { ds with errLog := ds.errLog ++ [.applyError e] }
    | .ok st' =>
      match msg.try_get_topic with
      | .ok topic =>
        some { ds with
                 state := st'
                 queues := route_message_to_subscribers ds.queues topic msg }
      | .error e =>
        some { ds with
                 state := st'
                 errLog := ds.errLog ++ [.topicError e] }

/-- The whole drain of one task's record channel. -/
def processOutMessages (task : String) (ds : DrainState) :
    List Rec → Option DrainState
  | [] => some ds
  | m :: ms =>
    match processOutMessage task ds m with
    | some ds' => processOutMessages task ds' ms
    | none => none

/-! ## Runner tick lifecycle

`src/pubsub/src/tasks/runner.rs` lines 183–292: the spawn / running
bookkeeping of one `run` call.  `running_tasks` and `spawn_tasks` are
`HashSet<TaskInfo>` keyed by the name hash, modelled as name lists.
-/

/-- `HashSet::insert`. -/
def listInsert (l : List String) (x : String) : List String :=
  if l.contains x then l else l ++ [x]

/-- `HashSet::remove`. -/
def listRemove (l : List String) (x : String) : List String :=
  l.filter (fun y => y ≠ x)

/-- The lifecycle-relevant behavior of one registered task on one tick:
its `should_run` answer (`false` also covers the logged `should_run`
failure, which `continue`s identically) and the meta commands its `run`
emits.  Record output does not feed back into the lifecycle. -/
structure TickTask where
  name : String
  should_run : Bool
  meta_out : List MetaMessage
deriving DecidableEq

/-- The lifecycle state of the runner during a tick, plus the trace of
tasks whose `run` was invoked this tick, in invocation order. -/
structure TickState where
  running : List String
  spawn : List String
  ran : List String
deriving DecidableEq

/-- Draining one meta message (runner.rs:278–289): `SpawnTask` inserts
into `spawn_tasks` unconditionally, `KillTask` removes from
`running_tasks`. -/
def applyMeta (ts : TickState) (m : MetaMessage) : TickState :=
  match m.command with
  | .SpawnTask => { ts with spawn := listInsert ts.spawn m.task_info.name }
  | .KillTask => { ts with running := listRemove ts.running m.task_info.name }

/-- The body of the per-task loop of `Runner::run` (runner.rs:187–292):
skip tasks in neither set; move a pending-spawn task into `running`
*before* the `should_run` poll; a task that runs has its meta commands
applied immediately, affecting later iterations of the same tick. -/
def tickStep (ts : TickState) (t : TickTask) : TickState :=
  if ¬ (ts.running.contains t.name ∨ ts.spawn.contains t.name) then ts
  else
    let ts1 :=
      if ts.spawn.contains t.name then
        { ts with
            spawn := listRemove ts.spawn t.name
            running := listInsert ts.running t.name }
      else ts
    if ¬ t.should_run then ts1
    else
      let ts2 := { ts1 with ran := ts1.ran ++ [t.name] }
      t.meta_out.foldl applyMeta ts2

/-- One tick: iterate the registered tasks in their (fixed) iteration
order. -/
def runTick (tasks : List TickTask) (ts : TickState) : TickState :=
  tasks.foldl tickStep ts

/-! ## Runner cleanup

`src/pubsub/src/tasks/runner.rs` lines 360–377.  The dump result and each
task's `cleanup()` result are the behavior environment; the model returns
which tasks had `cleanup()` invoked and the propagated error, if any.
-/

/-- The per-task loop of `Runner::cleanup`: `task.cleanup()?` — the first
failure returns, skipping the remaining tasks (the failing task itself was
invoked). -/
def cleanupTasks : List (String × Except String Unit) → List String →
    List String × Option String
  | [], acc => (acc, none)
  | (n, r) :: rest, acc =>
    match r with
    | .ok _ => cleanupTasks rest (acc ++ [n])
    | .error e => (acc ++ [n], some e)

/-- `Runner::cleanup` (runner.rs:360–377):
`dump_remaining_state(…)?` first — its failure returns before any task
cleanup — then every task's `cleanup()?`.  (The final
`subscription_queues.clear()` is likewise skipped on error.) -/
def runnerCleanup (dump : Except String Unit)
    (tasks : List (String × Except String Unit)) :
    List String × Option String :=
  match dump with
  | .error e => ([], some e)
  | .ok _ => cleanupTasks tasks []

/-! ## Stage controller

`src/quad/src/exec/exec_runner.rs`, `exec_config.rs`, `stage.rs`.
-/

/-- `ExecStage` (stage.rs). -/
inductive ExecStage where
  | AwaitConnection : ExecStage
  | AwaitingData : ExecStage
  | AwaitingHealthy : ExecStage
  | AwaitingLock : ExecStage
  | HealthyUnarmed : ExecStage
  | HealthyArmed : ExecStage
  | HealthyGuided : ExecStage
  | Unhealthy : ExecStage
  | Fatal : ExecStage
deriving DecidableEq

/-- `ExecConfig` (exec_config.rs:5–8). -/
structure ExecConfig where
  stage_task_names : List (ExecStage × List String)
  default_tasks : List String

/-- `ExecConfig::get_stage_tasks` (exec_config.rs:56–58). -/
def ExecConfig.get_stage_tasks (cfg : ExecConfig) (stage : ExecStage) :
    Option (List String) :=
  lookupAssoc cfg.stage_task_names stage

/-- The persistent fields of `ExecRunner` (exec_runner.rs:12–16). -/
structure ExecRunnerState where
  stage : ExecStage
  spawned_tasks : List TaskInfo
deriving DecidableEq

/-- `ExecRunner::new` (exec_runner.rs:19–25). -/
def execNew : ExecRunnerState :=
  ⟨ExecStage.AwaitConnection, []⟩

/-- `ExecRunner::init` (exec_runner.rs:29–47): for every default task,
record it in `spawned_tasks` and emit a spawn meta command with
`insta_spawn`; then subscribe to `exec/stage`.  Returns (new state, meta
messages, subscribed topics). -/
def execInit (cfg : ExecConfig) (st : ExecRunnerState) :
    ExecRunnerState × List MetaMessage × List String :=
  let infos := cfg.default_tasks.map (fun n => (TaskInfo.new n).with_insta_spawn)
  ({ st with spawned_tasks := st.spawned_tasks ++ infos },
   infos.map (fun i => MetaMessage.mk .SpawnTask i),
   ["exec/stage"])

/-- Remove the first entry equal (by `TaskInfo` equality, i.e. by name) to
`t`: `position(|x| *x == task)` + `remove` (exec_runner.rs:123–125). -/
def removeFirstTask : List TaskInfo → TaskInfo → List TaskInfo
  | [], _ => []
  | t' :: rest, t =>
    if t'.name = t.name then rest else t' :: removeFirstTask rest t

/-- `ExecRunner::run` (exec_runner.rs:53–129).  The input decoding — the
`starts_with("exec/stage")` topic check and the serde bridge — is
abstracted to the list of decoded stage updates in this tick's inputs,
adopted in order (`self.stage = s`).  Then: `desired` is
`config.get_stage_tasks(stage)` — or empty when the stage is not
configured — with **no** union with the default tasks; spawns are desired
names not currently in `spawned_tasks`; kills are `spawned_tasks` entries
whose name is not desired.  Spawn messages are sent (and bookkept) before
kill messages. -/
def execRun (cfg : ExecConfig) (st : ExecRunnerState)
    (stage_updates : List ExecStage) :
    ExecRunnerState × List MetaMessage :=
  let stage := stage_updates.foldl (fun _ s => s) st.stage
  let desired_tasks :=
    match cfg.get_stage_tasks stage with
    | some tasks => tasks
    | none => []
  let tasks_to_spawn := desired_tasks.filter
    (fun n => ¬ st.spawned_tasks.any (fun t => t.name = n))
  let tasks_to_kill := st.spawned_tasks.filter
    (fun t => ¬ desired_tasks.any (fun n => n = t.name))
  let spawned1 := st.spawned_tasks ++ tasks_to_spawn.map
    (fun n => (TaskInfo.new n).with_insta_spawn)
  let spawned2 := tasks_to_kill.foldl removeFirstTask spawned1
  (⟨stage, spawned2⟩,
   tasks_to_spawn.map
     (fun n => MetaMessage.mk .SpawnTask ((TaskInfo.new n).with_insta_spawn))
   ++ tasks_to_kill.map (fun t => MetaMessage.mk .KillTask t))

/-! ## Persistence sink

`src/pubsub/src/tasks/logging.rs`.  File I/O is the behavior environment:
whether `create_dir_all` succeeds per topic and whether the write of one
format for one topic succeeds.  Written files are identified by
(topic, format).  The state accessors `get_topic_row_count`,
`get_topic_record`, `replace_topic_record` and `remove_topic` that
logging.rs calls are absent from src/'s state.rs; they are modelled from
spec §4.4 (`row_count(topic) -> n?`, `get(topic) -> Record?`,
`replace(topic, Record)`, `remove(topic)`) as the evident map operations.
-/

/-- `OutputFormat` (logging.rs:17–21). -/
inductive OutputFormat where
  | Parquet : OutputFormat
  | Csv : OutputFormat
deriving DecidableEq

/-- The configuration fields of `RunnerLogger` (logging.rs:23–29) that
feed control flow.  `formats: HashSet<OutputFormat>` is modelled as a list
in iteration order. -/
structure RunnerLogger where
  trigger_rows : Nat
  history_rows : Nat
  formats : List OutputFormat

/-- The I/O environment of one `process_state` call. -/
structure IOEnv where
  dirOk : String → Bool
  writeOk : OutputFormat → String → Bool

/-- The per-format write loop (logging.rs:129–162): each configured format
is attempted independently — a failure is logged and the loop moves to the
next format — and `files_written` collects the successes.  (The CSV path
first flattens the batch; `flatten_record_batch` is total in the model, so
CSV success is the write oracle alone.) -/
def writeFormatsFor (lg : RunnerLogger) (io : IOEnv) (topic : String) :
    List OutputFormat :=
  lg.formats.filter (fun f => io.writeOk f topic)

/-- The body of the per-topic loop of `process_state` (logging.rs:98–196):
missing record → warn and skip; `create_dir_all` failure is `?`-propagated
(aborting the whole call); otherwise write the formats, and only when
`files_written` is non-empty trim — `history_rows > 0 && num_rows >
history_rows` replaces the entry with its last `history_rows` rows (the
source's `get_n_latest_rows(…)?`, in range here), `history_rows == 0`
removes the entry. -/
def processTopic (lg : RunnerLogger) (io : IOEnv) (topic : String)
    (st : RunnerState) :
    Except String (RunnerState × List (String × OutputFormat)) :=
  match lookupAssoc st.topic_data topic with
  | none => .ok (st, [])
  | some record =>
    if ¬ io.dirOk topic then .error "Failed to create topic directory structure"
    else
      let files := (writeFormatsFor lg io topic).map (fun f => (topic, f))
      if files.isEmpty then .ok (st, [])
      else
        if lg.history_rows > 0 ∧ record.nrows > lg.history_rows then
          match get_n_latest_rows record lg.history_rows with
          | some h => .ok (⟨replaceAssoc st.topic_data topic h⟩, files)
          | none => .error "get_n_latest_rows underflow"
        else if lg.history_rows = 0 then
          .ok (⟨removeAssoc st.topic_data topic⟩, files)
        else .ok (st, files)

/-- The topic fold of `process_state`, accumulating written files. -/
def processTopics (lg : RunnerLogger) (io : IOEnv) :
    List String → RunnerState → List (String × OutputFormat) →
    Except String (RunnerState × List (String × OutputFormat))
  | [], st, files => .ok (st, files)
  | t :: ts, st, files =>
    match processTopic lg io t st with
    | .ok (st', fs) => processTopics lg io ts st' (files ++ fs)
    | .error e => .error e

/-- `RunnerLogger::process_state` (logging.rs:83–198): nothing to do
without formats; otherwise process every topic whose row count has reached
`trigger_rows` (`map_or(false, |count| count >= trigger_rows)`), the topic
list being computed up front from the incoming state. -/
def process_state (lg : RunnerLogger) (io : IOEnv) (st : RunnerState) :
    Except String (RunnerState × List (String × OutputFormat)) :=
  if lg.formats.isEmpty then .ok (st, [])
  else
    let topics := st.get_topics.filter (fun t =>
      match st.rowCount t with
      | some c => decide (c ≥ lg.trigger_rows)
      | none => false)
    processTopics lg io topics st []

/-! ## Concrete example values

Small concrete records, states and configurations used by the
counterexample and witness theorems below.
-/

/-- Is the column a non-struct column? -/
def Col.isLeaf : Col → Bool
  | .leaf _ _ _ => true
  | .strct _ _ => false

/-- A record whose schema is a struct column followed by a scalar column
(no field name contains a dot). -/
def recStructScalar : Rec :=
  { cols := [("s", Col.strct true (Cols.cons "a" (Col.leaf .int64 true [Val.vint 1]) Cols.nil)),
             ("id", Col.leaf .int64 false [Val.vint 7])],
    meta := [("topic", "t/x")],
    nrows := 1 }

/-- A one-row, one-column record. -/
def recOneRow : Rec :=
  { cols := [("v", Col.leaf .int64 false [Val.vint 1])],
    meta := [("topic", "t/a")],
    nrows := 1 }

/-- A three-row, one-column record. -/
def recThreeRows : Rec :=
  { cols := [("v", Col.leaf .int64 false [Val.vint 1, Val.vint 2, Val.vint 3])],
    meta := [("topic", "t/a")],
    nrows := 3 }

/-- A runner state holding one topic with a single row. -/
def stateOneRow : RunnerState :=
  ⟨[("t/a", recOneRow)]⟩

/-- A stage-controller configuration with one default (always-on) task and
no per-stage tasks. -/
def cfgDefaultOnly : ExecConfig :=
  ⟨[], ["watchdog"]⟩

/-! # Theorems

General lemmas first, then the claim theorems with their witnesses and
counterexamples.
-/

/-! ## List and string lemmas -/

theorem listStartsWith_refl (l : List Char) : listStartsWith l l = true := by
  induction l with
  | nil => rfl
  | cons c cs ih => simp [listStartsWith, ih]

theorem entriesLen_append : ∀ a b : List (String × Col),
    entriesLen (a ++ b) = entriesLen a + entriesLen b := by
  intro a b
  induction a with
  | nil => simp [entriesLen]
  | cons h t ih =>
    obtain ⟨n, c⟩ := h
    have h1 : entriesLen (((n, c) :: t) ++ b)
        = n.data.length + 1 + entriesLen (t ++ b) := rfl
    have h2 : entriesLen ((n, c) :: t) = n.data.length + 1 + entriesLen t := rfl
    rw [h1, h2, ih]
    omega

theorem entriesLen_eq : ∀ g : List (String × Col),
    entriesLen g = namesLen g + g.length := by
  intro g
  induction g with
  | nil => simp [entriesLen, namesLen]
  | cons h t ih =>
    obtain ⟨n, c⟩ := h
    simp only [entriesLen, namesLen, ih, List.length_cons]
    omega

theorem splitDotL_len : ∀ l r rest, splitDotL l = some (r, rest) →
    r.length + 1 + rest.length = l.length := by
  intro l
  induction l with
  | nil => intro r rest h; simp [splitDotL] at h
  | cons c cs ih =>
    intro r rest h
    by_cases hc : c = '.'
    · rw [splitDotL, if_pos hc] at h
      obtain ⟨h1, h2⟩ := Prod.mk.injEq _ _ _ _ ▸ Option.some.inj h
      subst h1; subst h2
      simp only [List.length_nil, List.length_cons]
      omega
    · rw [splitDotL, if_neg hc] at h
      cases hs : splitDotL cs with
      | none => rw [hs] at h; simp at h
      | some p =>
        rw [hs] at h
        obtain ⟨r', rest'⟩ := p
        obtain ⟨h1, h2⟩ := Prod.mk.injEq _ _ _ _ ▸ Option.some.inj h
        have hlen := ih r' rest' hs
        have hr : r.length = r'.length + 1 := by rw [← h1]; simp
        have hrest : rest.length = rest'.length := by rw [← h2]
        simp only [List.length_cons]
        omega

theorem splitDot_len : ∀ (n : String) root loc, splitDot n = some (root, loc) →
    loc.data.length + 1 ≤ n.data.length := by
  intro n root loc h
  unfold splitDot at h
  cases hs : splitDotL n.data with
  | none => rw [hs] at h; simp at h
  | some p =>
    obtain ⟨r, rest⟩ := p
    rw [hs] at h
    simp at h
    obtain ⟨h1, h2⟩ := h
    have hlen := splitDotL_len n.data r rest hs
    subst h2
    show rest.length + 1 ≤ n.data.length
    omega

theorem addToGroups_groupsLen : ∀ gs root e,
    groupsLen (addToGroups gs root e) = groupsLen gs + (e.1.data.length + 1) := by
  intro gs root e
  induction gs with
  | nil => simp [addToGroups, groupsLen, entriesLen]
  | cons h t ih =>
    obtain ⟨r, es⟩ := h
    obtain ⟨en, ec⟩ := e
    by_cases hr : r = root
    · simp only [addToGroups, if_pos hr, groupsLen, entriesLen_append, entriesLen]
      omega
    · simp only [addToGroups, if_neg hr, groupsLen, ih]
      omega

theorem addToGroups_nonempty : ∀ gs root e r g,
    (∀ r' g', (r', g') ∈ gs → g' ≠ []) →
    (r, g) ∈ addToGroups gs root e → g ≠ [] := by
  intro gs root e
  induction gs with
  | nil =>
    intro r g _ hm
    simp [addToGroups] at hm
    simp [hm.2]
  | cons h0 t ih =>
    obtain ⟨r0, es⟩ := h0
    intro r g hne hm
    by_cases hr : r0 = root
    · rw [addToGroups, if_pos hr] at hm
      rcases List.mem_cons.mp hm with h | h
      · have hg : g = es ++ [e] := congrArg Prod.snd h
        rw [hg]; simp
      · exact hne r g (List.mem_cons_of_mem _ h)
    · rw [addToGroups, if_neg hr] at hm
      rcases List.mem_cons.mp hm with h | h
      · have hg : g = es := congrArg Prod.snd h
        rw [hg]
        exact hne r0 es (List.mem_cons_self _ _)
      · exact ih r g (fun r' g' hm' => hne r' g' (List.mem_cons_of_mem _ hm')) h

theorem catFold_bound : ∀ (fields : List (String × Col)) acc,
    groupsLen (fields.foldl catStep acc).2 ≤ groupsLen acc.2 + namesLen fields := by
  intro fields
  induction fields with
  | nil => intro acc; simp [namesLen]
  | cons h t ih =>
    obtain ⟨n, c⟩ := h
    intro acc
    simp only [List.foldl_cons]
    cases hs : splitDot n with
    | none =>
      have h1 : catStep acc (n, c) = (acc.1 ++ [(n, c)], acc.2) := by
        simp [catStep, hs]
      rw [h1]
      have h2 := ih (acc.1 ++ [(n, c)], acc.2)
      have h3 : groupsLen ((acc.1 ++ [(n, c)], acc.2)
          : List (String × Col) × List (String × List (String × Col))).2
          = groupsLen acc.2 := rfl
      rw [h3] at h2
      simp only [namesLen]
      omega
    | some rl =>
      obtain ⟨root, loc⟩ := rl
      have hloc := splitDot_len n root loc hs
      have h1 : catStep acc (n, c) = (acc.1, addToGroups acc.2 root (loc, c)) := by
        simp [catStep, hs]
      rw [h1]
      have h2 := ih (acc.1, addToGroups acc.2 root (loc, c))
      have h3 : groupsLen ((acc.1, addToGroups acc.2 root (loc, c))
          : List (String × Col) × List (String × List (String × Col))).2
          = groupsLen acc.2 + (loc.data.length + 1) := by
        have := addToGroups_groupsLen acc.2 root (loc, c)
        simpa using this
      rw [h3] at h2
      simp only [namesLen]
      omega

theorem catFold_nonempty : ∀ (fields : List (String × Col)) acc r g,
    (∀ r' g', (r', g') ∈ acc.2 → g' ≠ []) →
    (r, g) ∈ (fields.foldl catStep acc).2 → g ≠ [] := by
  intro fields
  induction fields with
  | nil =>
    intro acc r g hne hm
    exact hne r g hm
  | cons h t ih =>
    obtain ⟨n, c⟩ := h
    intro acc r g hne hm
    simp only [List.foldl_cons] at hm
    cases hs : splitDot n with
    | none =>
      have h1 : catStep acc (n, c) = (acc.1 ++ [(n, c)], acc.2) := by
        simp [catStep, hs]
      rw [h1] at hm
      exact ih (acc.1 ++ [(n, c)], acc.2) r g hne hm
    | some rl =>
      have h1 : catStep acc (n, c) = (acc.1, addToGroups acc.2 rl.1 (rl.2, c)) := by
        simp [catStep, hs]
      rw [h1] at hm
      exact ih (acc.1, addToGroups acc.2 rl.1 (rl.2, c)) r g
        (fun r' g' hm' => addToGroups_nonempty acc.2 rl.1 (rl.2, c) r' g' hne hm') hm

theorem mem_groupsLen : ∀ gs (r : String) (g : List (String × Col)),
    (r, g) ∈ gs → entriesLen g ≤ groupsLen gs := by
  intro gs r g
  induction gs with
  | nil => intro h; simp at h
  | cons h0 t ih =>
    obtain ⟨r0, es⟩ := h0
    intro hm
    rcases List.mem_cons.mp hm with h | h
    · have hg : g = es := congrArg Prod.snd h
      subst hg
      simp only [groupsLen]
      omega
    · have := ih h
      simp only [groupsLen]
      omega

theorem categorize_groups_shrink : ∀ (fields : List (String × Col)) r g,
    (r, g) ∈ (categorize fields).2 → namesLen g < namesLen fields := by
  intro fields r g hm
  unfold categorize at hm
  have hb := catFold_bound fields ([], [])
  have hne := catFold_nonempty fields ([], []) r g (by simp) hm
  have hmem := mem_groupsLen _ r g hm
  have heq := entriesLen_eq g
  have hlen : 1 ≤ g.length := by
    cases g with
    | nil => simp at hne
    | cons a b => simp
  simp only [groupsLen] at hb
  omega

/-! ## Faithfulness of the fuelled `build_nested_struct` -/

theorem buildNestedFuel_congr : ∀ f1 f2 fields, namesLen fields < f1 →
    namesLen fields < f2 → buildNestedFuel f1 fields = buildNestedFuel f2 fields := by
  intro f1
  induction f1 with
  | zero => intro f2 fields h1 h2; omega
  | succ f ih =>
    intro f2 fields h1 h2
    cases f2 with
    | zero => omega
    | succ f2 =>
      simp only [buildNestedFuel]
      congr 1
      apply List.map_congr_left
      intro rg hrg
      have hs := categorize_groups_shrink fields rg.1 rg.2 hrg
      rw [ih f2 rg.2 (by omega) (by omega)]

/-- `build_nested_struct` satisfies the recursion equation of the source
(record.rs:134–196): direct fields, then one recursively built struct per
group. -/
theorem build_nested_struct_eq (fields : List (String × Col)) :
    build_nested_struct fields = (categorize fields).1
      ++ (categorize fields).2.map
          (fun rg => (rg.1, Col.strct true (listToCols (build_nested_struct rg.2)))) := by
  conv_lhs => rw [build_nested_struct, buildNestedFuel]
  congr 1
  apply List.map_congr_left
  intro rg hrg
  have hs := categorize_groups_shrink fields rg.1 rg.2 hrg
  rw [build_nested_struct,
    buildNestedFuel_congr (namesLen fields) (namesLen rg.2 + 1) rg.2 hs (by omega)]

/-! ## C1 — topic matcher vs the specification's 4-rule ladder -/

/-- C1 (counterexample): for the star pattern `a*b` and topic `zab` the
runner's routing test and the state query test both match — the unanchored
`Regex::is_match` finds `a.*b` inside `zab` — while the specification's
ladder (rule 2, full-string match) does not.  The claimed equality with
the 4-rule ladder is therefore false. -/
theorem matcher_ladder_counterexample :
    routeMatches "a*b" "zab" = true ∧ queryTopicMatches "a*b" "zab" = true ∧
    matchesReference "a*b" "zab" = false := by
  decide

/-- C1 (amended): for patterns without `*`, both the routing relation
(runner.rs:338–341) and the query relation (state.rs:34–51) equal the
ladder exactly.  For a pattern containing `*`, both are more permissive
than rule 2: routing matches iff the topic starts with the pattern, or the
`*`→`.*` regex matches anywhere in the topic (unanchored), or the pattern
contains `/` and the topic contains it; the query relation matches iff the
topic starts with the pattern or the regex matches anywhere. -/
theorem matcher_ladder_amended (p t : String) :
    (hasStar p = false →
      routeMatches p t = matchesReference p t ∧
      queryTopicMatches p t = matchesReference p t)
    ∧ (hasStar p = true →
      routeMatches p t
        = (strStartsWith t p || pattern_matches p t
            || (hasSlash p && strContains t p)) ∧
      queryTopicMatches p t = (strStartsWith t p || pattern_matches p t)) := by
  constructor
  · intro h
    unfold routeMatches matchesReference queryTopicMatches pattern_matches
    rw [h]
    by_cases hpt : p = t
    · subst hpt
      have hself : strStartsWith p p = true := listStartsWith_refl p.data
      simp [hself]
    · have hne : (p == t) = false := by
        simp [hpt]
      rw [hne]
      simp only [Bool.false_and, Bool.or_false, Bool.false_or, if_false]
      by_cases hs : hasSlash p = true
      · rw [hs]
        simp only [if_true, Bool.true_and]
        cases hst : strStartsWith t p <;> cases hc : strContains t p <;> simp
      · have hs' : hasSlash p = false := by
          cases h' : hasSlash p
          · rfl
          · exact absurd h' hs
        rw [hs']
        simp only [if_false, Bool.false_and, Bool.or_false]
        cases hst : strStartsWith t p <;> simp
  · intro h
    unfold routeMatches queryTopicMatches pattern_matches
    rw [h]
    simp only [Bool.true_and, if_true]
    constructor
    · trivial
    · cases hst : strStartsWith t p <;> simp

/-- C1 (witness for the amended theorem): a dot-free path pattern agrees
with the ladder, and a star pattern takes the permissive disjunction. -/
theorem matcher_ladder_amended_witness :
    routeMatches "mavlink/send" "mavlink/send/arm"
      = matchesReference "mavlink/send" "mavlink/send/arm"
    ∧ queryTopicMatches "exec/*" "exec/stage"
      = (strStartsWith "exec/stage" "exec/*"
          || pattern_matches "exec/*" "exec/stage") :=
  ⟨((matcher_ladder_amended "mavlink/send" "mavlink/send/arm").1 (by decide)).1,
   ((matcher_ladder_amended "exec/*" "exec/stage").2 (by decide)).2⟩

/-! ## C2 — flatten/unflatten round trip -/

theorem flattenTop_of_leaves : ∀ cols : List (String × Col),
    cols.all (fun nc => nc.2.isLeaf) = true → flattenTop cols = cols := by
  intro cols
  induction cols with
  | nil => intro _; rfl
  | cons h t ih =>
    obtain ⟨n, c⟩ := h
    intro hall
    simp only [List.all_cons, Bool.and_eq_true] at hall
    cases c with
    | leaf ty nl vs => simp [flattenTop, ih hall.2]
    | strct nl cs => simp [Col.isLeaf] at hall

/-- C2 (counterexample): the Record `recStructScalar` has columns
`[s : struct{a}, id]` — no field name contains a dot — yet
`unflatten(flatten(x))` rebuilds the schema as `[id, s]` (dot-free columns
first, struct groups appended, record.rs:198–222), so the round trip is
not the identity; and on the flatten-produced record `[s.a, id]`,
`flatten(unflatten(x))` yields `[id, s.a] ≠ x`, refuting the second half
as well. -/
theorem flatten_roundtrip_counterexample :
    unflatten_record_batch (flatten_record_batch recStructScalar) ≠ recStructScalar
    ∧ flatten_record_batch (unflatten_record_batch (flatten_record_batch recStructScalar))
        ≠ flatten_record_batch recStructScalar := by
  decide

/-- C2 (amended): the round trips are the identity on Records with no
dotted field names **and no struct-typed columns** (on such records both
transformations are the identity); in general both transformations
preserve the schema metadata and the row count, but `unflatten` may
reorder fields (dot-free columns first, rebuilt struct columns appended)
and rebuilds struct fields as nullable. -/
theorem flatten_roundtrip_amended (r : Rec) :
    ((r.cols.all (fun nc => (splitDot nc.1).isNone) = true ∧
      r.cols.all (fun nc => nc.2.isLeaf) = true) →
      unflatten_record_batch (flatten_record_batch r) = r ∧
      flatten_record_batch (unflatten_record_batch r) = r)
    ∧ (flatten_record_batch r).meta = r.meta
    ∧ (flatten_record_batch r).nrows = r.nrows
    ∧ (unflatten_record_batch r).meta = r.meta
    ∧ (unflatten_record_batch r).nrows = r.nrows := by
  refine ⟨?_, rfl, rfl, ?_, ?_⟩
  · rintro ⟨hnodot, hleaf⟩
    have hflat : flatten_record_batch r = r := by
      unfold flatten_record_batch
      rw [flattenTop_of_leaves r.cols hleaf]
    have hunflat : unflatten_record_batch r = r := by
      unfold unflatten_record_batch
      rw [if_pos]
      simp only [List.all_eq_true] at hnodot ⊢
      exact hnodot
    rw [hflat, hunflat, hflat]
    exact ⟨rfl, rfl⟩
  · unfold unflatten_record_batch
    split <;> rfl
  · unfold unflatten_record_batch
    split <;> rfl

/-- C2 (witness for the amended theorem): a dot-free all-scalar record
round-trips unchanged. -/
theorem flatten_roundtrip_amended_witness :
    unflatten_record_batch (flatten_record_batch recOneRow) = recOneRow :=
  ((flatten_roundtrip_amended recOneRow).1 (by decide)).1

/-! ## C3 — latest(n) row slicing -/

/-- C3: `get_n_latest_rows` behaves as claimed only for `n ≤ num_rows`.
At the failing input — a one-row record with `n = 2` — the source computes
`num_rows() - n` on `usize` (record.rs:446) and panics (modelled `none`)
instead of returning all rows; the same underflow sits in
`RunnerState::get_n_latest_topic_data` (state.rs:76).  For `n ≤ R` the
result is the last `n` rows in order with the schema and metadata
preserved, and `n = 0` yields a zero-row record with the same schema. -/
theorem latest_rows_at_failing_input :
    get_n_latest_rows recOneRow 2 = none
    ∧ (stateOneRow.get_n_latest_topic_data "t/a" 2).isNone = true
    ∧ get_n_latest_rows recThreeRows 2
        = some { cols := [("v", Col.leaf .int64 false [Val.vint 2, Val.vint 3])],
                 meta := [("topic", "t/a")], nrows := 2 }
    ∧ get_n_latest_rows recThreeRows 0
        = some { cols := [("v", Col.leaf .int64 false [])],
                 meta := [("topic", "t/a")], nrows := 0 } := by
  decide

/-! ## C4 — spawn during a tick -/

/-- `applyMeta` never touches the invocation trace. -/
theorem foldl_applyMeta_ran (ms : List MetaMessage) (ts : TickState) :
    (List.foldl applyMeta ts ms).ran = ts.ran := by
  induction ms generalizing ts with
  | nil => rfl
  | cons m ms ih =>
    simp only [List.foldl_cons, ih]
    cases m with
    | mk cmd info => cases cmd <;> rfl

/-- C4 (counterexample): task `B` is registered but neither running nor
pending; `A` (earlier in the iteration order) spawns `B` during the tick,
and the same tick's loop reaches `B`, moves it out of the spawn set
(runner.rs:194–197) and invokes its `run` — the trace is `[A, B]`.  A task
spawned mid-tick is therefore *not* always deferred to the next tick. -/
theorem spawn_same_tick_counterexample :
    (["A"] : List String).contains "B" = false
    ∧ (runTick [⟨"A", true, [⟨.SpawnTask, ⟨"B", true⟩⟩]⟩, ⟨"B", true, []⟩]
        ⟨["A"], [], []⟩).ran = ["A", "B"] := by
  decide

/-- C4 (amended): a task spawned by a meta command during a tick is run in
that same tick iff its position in the iteration order comes after the
spawner's; at an earlier position it stays in the pending-spawn set and
first runs next tick.  Stated for a running spawner `a` and a registered,
not-running spawnee `b` in both orders. -/
theorem spawn_tick_position_amended (a b : String) (h : a ≠ b)
    (mb : List MetaMessage) :
    (runTick [⟨a, true, [⟨.SpawnTask, ⟨b, true⟩⟩]⟩, ⟨b, true, mb⟩]
        ⟨[a], [], []⟩).ran = [a, b]
    ∧ (runTick [⟨b, true, mb⟩, ⟨a, true, [⟨.SpawnTask, ⟨b, true⟩⟩]⟩]
        ⟨[a], [], []⟩).ran = [a]
    ∧ (runTick [⟨b, true, mb⟩, ⟨a, true, [⟨.SpawnTask, ⟨b, true⟩⟩]⟩]
        ⟨[a], [], []⟩).spawn = [b] := by
  refine ⟨?_, ?_, ?_⟩ <;>
    simp [runTick, tickStep, applyMeta, listInsert, listRemove, h, Ne.symm h,
      foldl_applyMeta_ran]

/-- C4 (witness for the amended theorem). -/
theorem spawn_tick_position_amended_witness :
    (runTick [⟨"exec", true, [⟨.SpawnTask, ⟨"arm", true⟩⟩]⟩, ⟨"arm", true, []⟩]
        ⟨["exec"], [], []⟩).ran = ["exec", "arm"] :=
  (spawn_tick_position_amended "exec" "arm" (by decide) []).1

/-! ## C5 — stage controller desired set -/

/-- Bridge between the source's `any`-based membership test and `decide`d
universal absence. -/
theorem not_any_name (spawned : List TaskInfo) (a : String) :
    (!spawned.any fun t => t.name == a) = decide (∀ x ∈ spawned, ¬ x.name = a) := by
  induction spawned with
  | nil => simp
  | cons h t ih => by_cases hh : h.name = a <;> simp [hh, ih]

/-- C5 (counterexample): a controller configured with one always-on
(default) task and no per-stage tasks spawns it at init, and the very next
`run` — `desired = config.get_stage_tasks(stage)` with **no** union with
the default tasks (exec_runner.rs:80–86) — emits a kill for that always-on
task. -/
theorem stage_controller_kills_default_counterexample :
    cfgDefaultOnly.default_tasks = ["watchdog"]
    ∧ (execRun cfgDefaultOnly (execInit cfgDefaultOnly execNew).1 []).2
        = [MetaMessage.mk .KillTask ⟨"watchdog", true⟩] := by
  decide

/-- C5 (amended): on every run the desired set is
`config[current_stage]` alone (empty when the stage is unconfigured), with
no union with `always_on`: the kill messages are exactly the
currently-spawned tasks whose name is not in `config[current_stage]` —
always-on tasks included — and the spawn messages are exactly the desired
names not currently spawned, each with a fresh `insta_spawn` TaskInfo. -/
theorem stage_controller_amended (cfg : ExecConfig) (st : ExecRunnerState)
    (ups : List ExecStage) :
    (execRun cfg st ups).2.filter (fun m => m.command == .KillTask)
      = (st.spawned_tasks.filter
          (fun t => !(((cfg.get_stage_tasks
              (ups.foldl (fun _ s => s) st.stage)).getD []).contains t.name))).map
          (fun t => MetaMessage.mk .KillTask t)
    ∧ (execRun cfg st ups).2.filter (fun m => m.command == .SpawnTask)
      = ((((cfg.get_stage_tasks (ups.foldl (fun _ s => s) st.stage)).getD []).filter
          (fun n => !(st.spawned_tasks.any (fun t => t.name == n)))).map
          (fun n => MetaMessage.mk .SpawnTask ⟨n, true⟩)) := by
  have h1 : (MetaCommand.SpawnTask == MetaCommand.KillTask) = false := by decide
  have h2 : (MetaCommand.KillTask == MetaCommand.KillTask) = true := by decide
  have h3 : (MetaCommand.SpawnTask == MetaCommand.SpawnTask) = true := by decide
  have h4 : (MetaCommand.KillTask == MetaCommand.SpawnTask) = false := by decide
  unfold execRun
  cases hd : cfg.get_stage_tasks (List.foldl (fun x s => s) st.stage ups) with
  | none =>
    refine ⟨?_, ?_⟩ <;>
      simp [hd, List.filter_append, List.filter_map, Function.comp, Function.comp_def,
        h1, h2, h3, h4, not_any_name, TaskInfo.new, TaskInfo.with_insta_spawn]
  | some tasks =>
    refine ⟨?_, ?_⟩ <;>
      simp [hd, List.filter_append, List.filter_map, Function.comp, Function.comp_def,
        h1, h2, h3, h4, not_any_name, TaskInfo.new, TaskInfo.with_insta_spawn]

/-! ## C6 — apply adds rows to exactly one topic -/

/-! Association-list lemmas for the topic store. -/

theorem lookupAssoc_append_self {α : Type} (l : List (String × α)) (k : String) (v : α)
    (h : lookupAssoc l k = none) : lookupAssoc (l ++ [(k, v)]) k = some v := by
  induction l with
  | nil => simp [lookupAssoc]
  | cons p rest ih =>
    obtain ⟨k0, v0⟩ := p
    by_cases hk : k0 = k
    · simp [lookupAssoc, hk] at h
    · simp only [lookupAssoc, List.cons_append, if_neg hk] at h ⊢
      exact ih h

theorem lookupAssoc_append_other {α : Type} (l : List (String × α)) (k k' : String) (v : α)
    (h : k' ≠ k) : lookupAssoc (l ++ [(k, v)]) k' = lookupAssoc l k' := by
  induction l with
  | nil => simp [lookupAssoc, Ne.symm h]
  | cons p rest ih =>
    obtain ⟨k0, v0⟩ := p
    by_cases hk : k0 = k'
    · simp [lookupAssoc, hk]
    · simp only [lookupAssoc, List.cons_append, if_neg hk]
      exact ih

theorem lookupAssoc_replace_self {α : Type} (l : List (String × α)) (k : String) (v : α)
    (cur : α) (h : lookupAssoc l k = some cur) :
    lookupAssoc (replaceAssoc l k v) k = some v := by
  induction l with
  | nil => simp [lookupAssoc] at h
  | cons p rest ih =>
    obtain ⟨k0, v0⟩ := p
    by_cases hk : k0 = k
    · simp [replaceAssoc, hk, lookupAssoc]
    · simp only [lookupAssoc, if_neg hk] at h
      simp only [replaceAssoc, if_neg hk, lookupAssoc, if_neg hk]
      exact ih h

theorem lookupAssoc_replace_other {α : Type} (l : List (String × α)) (k k' : String) (v : α)
    (h : k' ≠ k) : lookupAssoc (replaceAssoc l k v) k' = lookupAssoc l k' := by
  induction l with
  | nil => simp [replaceAssoc]
  | cons p rest ih =>
    obtain ⟨k0, v0⟩ := p
    by_cases hk : k0 = k
    · subst hk
      simp only [replaceAssoc, if_pos rfl]
      have hne : ¬ (k0 = k') := fun hh => h hh.symm
      simp only [lookupAssoc, if_neg hne]
    · simp only [replaceAssoc, if_neg hk]
      by_cases hk' : k0 = k'
      · simp only [lookupAssoc, if_pos hk']
      · simp only [lookupAssoc, if_neg hk']
        exact ih

/-- `apply_packet` on a record with its `topic` metadata set defers to
`append_record_batch` on that topic. -/
theorem apply_packet_eq (st : RunnerState) (r : Rec) (T : String)
    (h : r.getMeta "topic" = some T) :
    st.apply_packet r = some (st.append_record_batch T r) := by
  unfold RunnerState.apply_packet
  rw [h]

/-- The vacant-entry arm of `append_record_batch` (state.rs:84–87). -/
theorem append_vacant (st : RunnerState) (T : String) (rb : Rec)
    (h : lookupAssoc st.topic_data T = none) :
    st.append_record_batch T rb = .ok ⟨st.topic_data ++ [(T, rb)]⟩ := by
  unfold RunnerState.append_record_batch
  rw [h]

/-- The occupied-entry arm of `append_record_batch` (state.rs:88–94):
under the schema-containment guard the entry is replaced by the
concatenation, whose row count is the sum. -/
theorem append_occupied (st : RunnerState) (T : String) (rb cur : Rec)
    (h : lookupAssoc st.topic_data T = some cur)
    (hg : (schemaContains cur cur && schemaContains cur rb) = true) :
    st.append_record_batch T rb
      = .ok ⟨replaceAssoc st.topic_data T
          { cols := concatFields cur.cols rb.cols, meta := cur.meta,
            nrows := cur.nrows + rb.nrows }⟩ := by
  unfold RunnerState.append_record_batch concat_batches
  rw [h]
  simp only [hg, if_true]

/-- C6: applying a publish record with topic `T` whose schema is
compatible with the stored entry (or with no entry for `T`) succeeds, the
stored row count for `T` grows by the record's row count (from 0 when
absent), and no other topic's entry changes. -/
theorem apply_packet_adds_rows (st : RunnerState) (r : Rec) (T : String)
    (htopic : r.getMeta "topic" = some T)
    (hcompat : ∀ cur, lookupAssoc st.topic_data T = some cur →
      (schemaContains cur cur && schemaContains cur r) = true) :
    ∃ st', st.apply_packet r = some (.ok st')
      ∧ st'.rowCount T = some ((st.rowCount T).getD 0 + r.nrows)
      ∧ ∀ T', T' ≠ T →
          lookupAssoc st'.topic_data T' = lookupAssoc st.topic_data T' := by
  have happ := apply_packet_eq st r T htopic
  cases hl : lookupAssoc st.topic_data T with
  | none =>
    rw [append_vacant st T r hl] at happ
    refine ⟨_, happ, ?_, ?_⟩
    · show (lookupAssoc (st.topic_data ++ [(T, r)]) T).map Rec.nrows = _
      rw [lookupAssoc_append_self _ _ _ hl]
      show _ = some (((lookupAssoc st.topic_data T).map Rec.nrows).getD 0 + r.nrows)
      rw [hl]
      simp
    · intro T' hne
      exact lookupAssoc_append_other _ _ _ _ hne
  | some cur =>
    rw [append_occupied st T r cur hl (hcompat cur hl)] at happ
    refine ⟨_, happ, ?_, ?_⟩
    · show (lookupAssoc (replaceAssoc st.topic_data T _) T).map Rec.nrows = _
      rw [lookupAssoc_replace_self _ _ _ cur hl]
      show some (cur.nrows + r.nrows)
        = some (((lookupAssoc st.topic_data T).map Rec.nrows).getD 0 + r.nrows)
      rw [hl]
      simp
    · intro T' hne
      exact lookupAssoc_replace_other _ _ _ _ hne

/-- C6 (witness): appending one row to a one-row topic gives two rows and
touches nothing else. -/
theorem apply_packet_adds_rows_witness :
    ∃ st', stateOneRow.apply_packet recOneRow = some (.ok st')
      ∧ st'.rowCount "t/a" = some ((stateOneRow.rowCount "t/a").getD 0 + recOneRow.nrows)
      ∧ ∀ T', T' ≠ "t/a" →
          lookupAssoc st'.topic_data T' = lookupAssoc stateOneRow.topic_data T' :=
  apply_packet_adds_rows stateOneRow recOneRow "t/a" (by decide)
    (fun cur hcur => by
      have hc : recOneRow = cur := Option.some.inj
        ((by decide : lookupAssoc stateOneRow.topic_data "t/a" = some recOneRow).symm.trans hcur)
      rw [← hc]
      decide)

/-! ## C7 — metadata errors are logged, never fatal -/

/-- C7: in the runner's drain loop, a publish record whose `topic` key is
unset surfaces `apply_record`'s `TopicNotSet` error value, which is logged
and processing continues with the remaining messages from an otherwise
unchanged drain state; a record whose `flag` key is unset surfaces
`get_flag`'s `FlagMetadataNotSet` error value, likewise logged, and
processing continues.  Neither terminates the loop. -/
theorem drain_loop_logs_and_continues (task : String) (ds : DrainState)
    (ms : List Rec) (bad : Rec) :
    (bad.getMeta "flag" = some "PublishPacket" → bad.getMeta "topic" = none →
      ds.state.apply_record bad = .error .TopicNotSet
      ∧ processOutMessages task ds (bad :: ms)
          = processOutMessages task
              { ds with errLog := ds.errLog ++ [.applyError .TopicNotSet] } ms)
    ∧ (bad.getMeta "flag" = none →
      bad.get_flag = some (.error .FlagMetadataNotSet)
      ∧ processOutMessages task ds (bad :: ms)
          = processOutMessages task
              { ds with errLog := ds.errLog ++ [.flagError .FlagMetadataNotSet] } ms) := by
  constructor
  · intro hflag htopic
    have happly : ds.state.apply_record bad = .error .TopicNotSet := by
      unfold RunnerState.apply_record
      rw [hflag]
      simp [htopic]
    refine ⟨happly, ?_⟩
    have hmsg : processOutMessage task ds bad
        = some { ds with errLog := ds.errLog ++ [.applyError .TopicNotSet] } := by
      unfold processOutMessage Rec.get_flag
      rw [hflag]
      simp [parseFlag, happly]
    conv_lhs => rw [processOutMessages]
    rw [hmsg]
  · intro hflag
    have hgf : bad.get_flag = some (.error .FlagMetadataNotSet) := by
      unfold Rec.get_flag
      rw [hflag]
    refine ⟨hgf, ?_⟩
    have hmsg : processOutMessage task ds bad
        = some { ds with errLog := ds.errLog ++ [.flagError .FlagMetadataNotSet] } := by
      unfold processOutMessage
      rw [hgf]
    conv_lhs => rw [processOutMessages]
    rw [hmsg]

/-- C7 (witness): a topic-less publish record is consumed with exactly one
logged error. -/
theorem drain_loop_witness :
    processOutMessages "echo" ⟨⟨[]⟩, [], [], []⟩ [⟨[], [("flag", "PublishPacket")], 0⟩]
      = some ⟨⟨[]⟩, [], [], [.applyError .TopicNotSet]⟩ := by
  have h := ((drain_loop_logs_and_continues "echo" ⟨⟨[]⟩, [], [], []⟩ []
      ⟨[], [("flag", "PublishPacket")], 0⟩).1 (by decide) (by decide)).2
  rw [h]
  rfl

/-! ## C9 — runner cleanup error propagation -/

/-- C9 (counterexample): `Runner::cleanup` propagates errors with `?`
(runner.rs:362–370): a failing final dump returns before any task has its
`cleanup()` invoked, and one task's cleanup failure prevents the remaining
tasks' cleanups — cleanup is not best-effort. -/
theorem cleanup_abort_counterexample :
    runnerCleanup (.error "disk full") [("taskA", .ok ())] = ([], some "disk full")
    ∧ runnerCleanup (.ok ()) [("taskA", .error "boom"), ("taskB", .ok ())]
        = (["taskA"], some "boom") := by
  decide

/-- All-success run of the task-cleanup loop. -/
theorem cleanupTasks_ok : ∀ (tasks : List (String × Except String Unit)) acc,
    (∀ p ∈ tasks, p.2 = .ok ()) →
    cleanupTasks tasks acc = (acc ++ tasks.map Prod.fst, none) := by
  intro tasks
  induction tasks with
  | nil => intro acc _; simp [cleanupTasks]
  | cons p rest ih =>
    obtain ⟨n, r⟩ := p
    intro acc hall
    have hr : r = .ok () := hall (n, r) (List.mem_cons_self _ _)
    subst hr
    simp only [cleanupTasks]
    rw [ih (acc ++ [n]) (fun q hq => hall q (List.mem_cons_of_mem _ hq))]
    simp

/-- The loop stops at the first failing task cleanup. -/
theorem cleanupTasks_err : ∀ (pre : List (String × Except String Unit)) acc
    (n : String) (e : String) post,
    (∀ p ∈ pre, p.2 = .ok ()) →
    cleanupTasks (pre ++ (n, .error e) :: post) acc
      = (acc ++ pre.map Prod.fst ++ [n], some e) := by
  intro pre
  induction pre with
  | nil => intro acc n e post _; simp [cleanupTasks]
  | cons p rest ih =>
    obtain ⟨n0, r0⟩ := p
    intro acc n e post hall
    have hr : r0 = .ok () := hall (n0, r0) (List.mem_cons_self _ _)
    subst hr
    simp only [List.cons_append, cleanupTasks, List.append_eq]
    rw [ih (acc ++ [n0]) n e post (fun q hq => hall q (List.mem_cons_of_mem _ hq))]
    simp

/-- C9 (amended): `Runner::cleanup` instructs the sink to final-dump and
then invokes `cleanup()` on the tasks in order, but propagates the first
failure: a dump error prevents every task cleanup; a task cleanup error
prevents the remaining ones (the failing task itself was invoked); only
when everything succeeds is every task cleaned. -/
theorem runner_cleanup_amended :
    (∀ (e : String) (tasks : List (String × Except String Unit)),
        runnerCleanup (.error e) tasks = ([], some e))
    ∧ (∀ tasks : List (String × Except String Unit),
        (∀ p ∈ tasks, p.2 = .ok ()) →
        runnerCleanup (.ok ()) tasks = (tasks.map Prod.fst, none))
    ∧ (∀ (pre : List (String × Except String Unit)) (n e : String) post,
        (∀ p ∈ pre, p.2 = .ok ()) →
        runnerCleanup (.ok ()) (pre ++ (n, .error e) :: post)
          = (pre.map Prod.fst ++ [n], some e)) := by
  refine ⟨fun e tasks => rfl, fun tasks h => ?_, fun pre n e post h => ?_⟩
  · unfold runnerCleanup
    rw [cleanupTasks_ok tasks [] h]
    simp
  · unfold runnerCleanup
    rw [cleanupTasks_err pre [] n e post h]
    simp

/-- C9 (witness): two succeeding tasks are both cleaned. -/
theorem runner_cleanup_amended_witness :
    runnerCleanup (.ok ()) [("taskA", .ok ()), ("taskB", .ok ())]
      = (["taskA", "taskB"], none) :=
  runner_cleanup_amended.2.1 [("taskA", .ok ()), ("taskB", .ok ())]
    (by
      intro p hp
      rcases List.mem_cons.mp hp with h | h
      · rw [h]
      · rcases List.mem_cons.mp h with h2 | h2
        · rw [h2]
        · simp at h2)

/-! ## C10 — concat keeps self's metadata -/

/-- C10: when `Record::concat` succeeds, the result's schema metadata map
is exactly `self`'s (`concat_batches` is passed `self`'s schema,
record.rs:391); every key absent from `self`'s metadata — in particular
any `topic`/`flag` entry only `other` carries — is absent from the result,
not merged in. -/
theorem concat_metadata (a b c : Rec) (h : a.concat b = .ok c) :
    c.meta = a.meta
    ∧ (∀ k, lookupAssoc a.meta k = none → lookupAssoc c.meta k = none)
    ∧ (∀ k v, lookupAssoc b.meta k = some v → lookupAssoc a.meta k = none →
        lookupAssoc c.meta k = none) := by
  have hce : c.meta = a.meta := by
    unfold Rec.concat concat_batches at h
    by_cases hg : (schemaContains a a && schemaContains a b) = true
    · rw [if_pos hg] at h
      have h2 := Except.ok.inj h
      rw [← h2]
    · rw [if_neg hg] at h
      exact absurd h (by simp)
  exact ⟨hce, fun k hk => by rw [hce]; exact hk,
    fun k v _ hk => by rw [hce]; exact hk⟩

/-- C10 (witness): concatenating a metadata-less batch onto a topic-tagged
one keeps exactly the first batch's metadata. -/
theorem concat_metadata_witness :
    ∃ c, recThreeRows.concat { cols := recThreeRows.cols, meta := [], nrows := 3 }
        = .ok c ∧ c.meta = recThreeRows.meta := by
  have h : recThreeRows.concat { cols := recThreeRows.cols, meta := [], nrows := 3 }
      = .ok { cols := concatFields recThreeRows.cols recThreeRows.cols,
              meta := recThreeRows.meta, nrows := 6 } := rfl
  exact ⟨_, h, (concat_metadata _ _ _ h).1⟩

/-! ## C8 — persistence sink trigger, trim and per-format independence -/

theorem replaceAssoc_keys {α : Type} (l : List (String × α)) (k : String) (v : α) :
    (replaceAssoc l k v).map Prod.fst = l.map Prod.fst := by
  induction l with
  | nil => rfl
  | cons p rest ih =>
    obtain ⟨k0, v0⟩ := p
    by_cases hk : k0 = k
    · simp [replaceAssoc, hk]
    · simp [replaceAssoc, hk, ih]

theorem removeAssoc_keys_sublist {α : Type} (l : List (String × α)) (k : String) :
    ((removeAssoc l k).map Prod.fst).Sublist (l.map Prod.fst) := by
  induction l with
  | nil => simp [removeAssoc]
  | cons p rest ih =>
    obtain ⟨k0, v0⟩ := p
    by_cases hk : k0 = k
    · simp only [removeAssoc, if_pos hk, List.map_cons]
      exact List.sublist_cons_self _ _
    · simp only [removeAssoc, if_neg hk, List.map_cons]
      exact ih.cons₂ _

theorem lookupAssoc_remove_other {α : Type} (l : List (String × α)) (k k' : String)
    (h : k' ≠ k) : lookupAssoc (removeAssoc l k) k' = lookupAssoc l k' := by
  induction l with
  | nil => simp [removeAssoc]
  | cons p rest ih =>
    obtain ⟨k0, v0⟩ := p
    by_cases hk : k0 = k
    · subst hk
      have hne : ¬ (k0 = k') := fun hh => h hh.symm
      rw [removeAssoc, if_pos rfl]
      conv_rhs => rw [lookupAssoc]
      rw [if_neg hne]
    · by_cases hk' : k0 = k'
      · rw [removeAssoc, if_neg hk]
        rw [lookupAssoc, if_pos hk']
        conv_rhs => rw [lookupAssoc]
        rw [if_pos hk']
      · rw [removeAssoc, if_neg hk]
        rw [lookupAssoc, if_neg hk']
        conv_rhs => rw [lookupAssoc]
        rw [if_neg hk']
        exact ih

theorem lookupAssoc_none_of_not_mem {α : Type} (l : List (String × α)) (k : String)
    (h : k ∉ l.map Prod.fst) : lookupAssoc l k = none := by
  induction l with
  | nil => rfl
  | cons p rest ih =>
    obtain ⟨k0, v0⟩ := p
    simp only [List.map_cons, List.mem_cons] at h
    push_neg at h
    have hne : ¬ (k0 = k) := fun hh => h.1 hh.symm
    rw [lookupAssoc, if_neg hne]
    exact ih h.2

theorem lookupAssoc_mem_of_some {α : Type} (l : List (String × α)) (k : String) (v : α)
    (h : lookupAssoc l k = some v) : k ∈ l.map Prod.fst := by
  induction l with
  | nil => simp [lookupAssoc] at h
  | cons p rest ih =>
    obtain ⟨k0, v0⟩ := p
    by_cases hk : k0 = k
    · simp [hk]
    · simp only [lookupAssoc, if_neg hk] at h
      simp [ih h]

theorem lookupAssoc_remove_self {α : Type} (l : List (String × α)) (k : String)
    (h : (l.map Prod.fst).Nodup) : lookupAssoc (removeAssoc l k) k = none := by
  induction l with
  | nil => rfl
  | cons p rest ih =>
    obtain ⟨k0, v0⟩ := p
    simp only [List.map_cons, List.nodup_cons] at h
    by_cases hk : k0 = k
    · subst hk
      simp only [removeAssoc, if_pos rfl]
      exact lookupAssoc_none_of_not_mem rest k0 h.1
    · rw [removeAssoc, if_neg hk]
      rw [lookupAssoc, if_neg hk]
      exact ih h.2

theorem filter_nil_iff_any_false (formats : List OutputFormat) (p : OutputFormat → Bool) :
    formats.filter p = [] ↔ formats.any p = false := by
  induction formats with
  | nil => simp
  | cons f rest ih =>
    by_cases hf : p f <;> simp [List.filter_cons, List.any_cons, hf, ih]

/-- Unfolding of `processTopic` at a present topic record. -/
theorem processTopic_present_eq (lg : RunnerLogger) (io : IOEnv) (t : String)
    (st : RunnerState) (rec : Rec)
    (h : lookupAssoc st.topic_data t = some rec) :
    processTopic lg io t st
      = (if ¬ io.dirOk t then .error "Failed to create topic directory structure"
         else
           let files := (writeFormatsFor lg io t).map (fun f => (t, f))
           if files.isEmpty then .ok (st, [])
           else if lg.history_rows > 0 ∧ rec.nrows > lg.history_rows then
             match get_n_latest_rows rec lg.history_rows with
             | some h2 => .ok (⟨replaceAssoc st.topic_data t h2⟩, files)
             | none => .error "get_n_latest_rows underflow"
           else if lg.history_rows = 0 then .ok (⟨removeAssoc st.topic_data t⟩, files)
           else .ok (st, files)) := by
  unfold processTopic
  rw [h]

/-- Outcome of one topic's processing (logging.rs:98–196): the written
files are exactly the formats whose write succeeds, independently of the
other formats; with at least one success the entry is trimmed to at most
`history_rows` rows (removed when `history_rows = 0`), with none it is
untouched; other topics are never touched. -/
theorem processTopic_spec (lg : RunnerLogger) (io : IOEnv) (t : String)
    (st : RunnerState) (rec : Rec)
    (hrec : lookupAssoc st.topic_data t = some rec)
    (hdir : io.dirOk t = true)
    (hnodup : (st.topic_data.map Prod.fst).Nodup) :
    ∃ st', processTopic lg io t st
        = .ok (st', (lg.formats.filter (fun f => io.writeOk f t)).map (fun f => (t, f)))
      ∧ (∀ T, T ≠ t → lookupAssoc st'.topic_data T = lookupAssoc st.topic_data T)
      ∧ (st'.topic_data.map Prod.fst).Nodup
      ∧ (lg.formats.any (fun f => io.writeOk f t) = true →
           (lg.history_rows = 0 → lookupAssoc st'.topic_data t = none)
           ∧ (0 < lg.history_rows → ∃ rec', lookupAssoc st'.topic_data t = some rec'
               ∧ rec'.nrows ≤ lg.history_rows))
      ∧ (lg.formats.any (fun f => io.writeOk f t) = false →
           lookupAssoc st'.topic_data t = some rec) := by
  rw [processTopic_present_eq lg io t st rec hrec]
  rw [if_neg (by simp [hdir])]
  unfold writeFormatsFor
  cases hfs : lg.formats.filter (fun f => io.writeOk f t) with
  | nil =>
    simp only [hfs, List.map_nil, List.isEmpty_nil, if_true]
    refine ⟨st, rfl, fun T _ => rfl, hnodup, ?_, fun _ => hrec⟩
    intro hany
    rw [(filter_nil_iff_any_false lg.formats _).mp hfs] at hany
    cases hany
  | cons f0 fsrest =>
    have hanyt : lg.formats.any (fun f => io.writeOk f t) = true := by
      cases hany : lg.formats.any (fun f => io.writeOk f t) with
      | true => rfl
      | false =>
        rw [(filter_nil_iff_any_false lg.formats _).mpr hany] at hfs
        cases hfs
    simp only [hfs]
    rw [if_neg (by simp)]
    by_cases hh : 0 < lg.history_rows ∧ lg.history_rows < rec.nrows
    · rw [if_pos (by omega : lg.history_rows > 0 ∧ rec.nrows > lg.history_rows)]
      have hsl : get_n_latest_rows rec lg.history_rows
          = some (rec.slice (rec.nrows - lg.history_rows) lg.history_rows) := by
        unfold get_n_latest_rows
        rw [if_pos (Nat.le_of_lt hh.2)]
      rw [hsl]
      refine ⟨_, rfl, ?_, ?_, ?_, ?_⟩
      · intro T hT
        exact lookupAssoc_replace_other _ _ _ _ hT
      · show ((replaceAssoc st.topic_data t _).map Prod.fst).Nodup
        rw [replaceAssoc_keys]
        exact hnodup
      · intro _
        refine ⟨fun hz => absurd hh.1 (by omega), fun _ => ?_⟩
        exact ⟨_, lookupAssoc_replace_self _ _ _ rec hrec, Nat.le_refl _⟩
      · intro hany
        rw [hanyt] at hany
        cases hany
    · rw [if_neg (by omega : ¬ (lg.history_rows > 0 ∧ rec.nrows > lg.history_rows))]
      by_cases hz : lg.history_rows = 0
      · rw [if_pos hz]
        refine ⟨_, rfl, ?_, ?_, ?_, ?_⟩
        · intro T hT
          exact lookupAssoc_remove_other _ _ _ hT
        · show ((removeAssoc st.topic_data t).map Prod.fst).Nodup
          exact (removeAssoc_keys_sublist _ _).nodup hnodup
        · intro _
          exact ⟨fun _ => lookupAssoc_remove_self _ _ hnodup,
            fun hpos => absurd hz (by omega)⟩
        · intro hany
          rw [hanyt] at hany
          cases hany
      · rw [if_neg hz]
        refine ⟨st, rfl, fun T _ => rfl, hnodup, ?_, fun _ => hrec⟩
        intro _
        refine ⟨fun hzz => absurd hzz hz, fun hpos => ⟨rec, hrec, by omega⟩⟩

/-- A topic missing from the store is skipped with a warning. -/
theorem processTopic_absent (lg : RunnerLogger) (io : IOEnv) (t : String)
    (st : RunnerState) (h : lookupAssoc st.topic_data t = none) :
    processTopic lg io t st = .ok (st, []) := by
  unfold processTopic
  rw [h]

/-- The per-topic fold of `process_state`, by induction over the
(duplicate-free) topic list. -/
theorem processTopics_spec (lg : RunnerLogger) (io : IOEnv) :
    ∀ (ts : List String) (st : RunnerState) (acc : List (String × OutputFormat)),
    (st.topic_data.map Prod.fst).Nodup → ts.Nodup →
    (∀ t ∈ ts, io.dirOk t = true) →
    ∃ st' files, processTopics lg io ts st acc = .ok (st', acc ++ files)
      ∧ (∀ T, T ∉ ts → lookupAssoc st'.topic_data T = lookupAssoc st.topic_data T)
      ∧ (st'.topic_data.map Prod.fst).Nodup
      ∧ (∀ t ∈ ts, ∀ rec, lookupAssoc st.topic_data t = some rec →
           (∀ f ∈ lg.formats, io.writeOk f t = true → (t, f) ∈ files)
           ∧ (lg.formats.any (fun f => io.writeOk f t) = true →
                (lg.history_rows = 0 → lookupAssoc st'.topic_data t = none)
                ∧ (0 < lg.history_rows → ∀ rec', lookupAssoc st'.topic_data t = some rec'
                    → rec'.nrows ≤ lg.history_rows))
           ∧ (lg.formats.any (fun f => io.writeOk f t) = false →
                lookupAssoc st'.topic_data t = some rec)) := by
  intro ts
  induction ts with
  | nil =>
    intro st acc hnodup _ _
    exact ⟨st, [], by simp [processTopics], fun T _ => rfl, hnodup, by simp⟩
  | cons t ts ih =>
    intro st acc hnodup hts hdir
    have htsn : ts.Nodup := (List.nodup_cons.mp hts).2
    have htnotints : t ∉ ts := (List.nodup_cons.mp hts).1
    cases hl : lookupAssoc st.topic_data t with
    | none =>
      have heq : processTopics lg io (t :: ts) st acc
          = processTopics lg io ts st (acc ++ []) := by
        conv_lhs => rw [processTopics]
        rw [processTopic_absent lg io t st hl]
      obtain ⟨st', files, heq2, hframe, hnod, hconc⟩ :=
        ih st (acc ++ []) hnodup htsn (fun x hx => hdir x (List.mem_cons_of_mem _ hx))
      refine ⟨st', files, ?_, ?_, hnod, ?_⟩
      · rw [heq, heq2]
        simp
      · intro T hT
        exact hframe T (fun hx => hT (List.mem_cons_of_mem _ hx))
      · intro x hx rec hrec
        rcases List.mem_cons.mp hx with hxt | hxts
        · subst hxt
          rw [hl] at hrec
          cases hrec
        · exact hconc x hxts rec hrec
    | some rec0 =>
      obtain ⟨st1, heq1, hframe1, hnod1, hany1, hnone1⟩ :=
        processTopic_spec lg io t st rec0 hl (hdir t (List.mem_cons_self _ _)) hnodup
      have heq : processTopics lg io (t :: ts) st acc
          = processTopics lg io ts st1
              (acc ++ (lg.formats.filter (fun f => io.writeOk f t)).map (fun f => (t, f))) := by
        conv_lhs => rw [processTopics]
        rw [heq1]
      obtain ⟨st', files2, heq2, hframe2, hnod2, hconc2⟩ :=
        ih st1 (acc ++ (lg.formats.filter (fun f => io.writeOk f t)).map (fun f => (t, f)))
          hnod1 htsn (fun x hx => hdir x (List.mem_cons_of_mem _ hx))
      refine ⟨st', (lg.formats.filter (fun f => io.writeOk f t)).map (fun f => (t, f)) ++ files2,
        ?_, ?_, hnod2, ?_⟩
      · rw [heq, heq2, List.append_assoc]
      · intro T hT
        have h1 : T ∉ ts := fun hx => hT (List.mem_cons_of_mem _ hx)
        have h2 : T ≠ t := fun hx => hT (hx ▸ List.mem_cons_self _ _)
        rw [hframe2 T h1, hframe1 T h2]
      · intro x hx rec hrec
        rcases List.mem_cons.mp hx with hxt | hxts
        · subst hxt
          have hrec0 : rec = rec0 := Option.some.inj (hrec.symm.trans hl)
          have hst't : lookupAssoc st'.topic_data x = lookupAssoc st1.topic_data x :=
            hframe2 x htnotints
          refine ⟨?_, ?_, ?_⟩
          · intro f hf hw
            apply List.mem_append_left
            exact List.mem_map.mpr ⟨f, List.mem_filter.mpr ⟨hf, hw⟩, rfl⟩
          · intro hany
            obtain ⟨hz, hpos⟩ := hany1 hany
            refine ⟨fun h0 => by rw [hst't]; exact hz h0, fun hp rec' hrec' => ?_⟩
            obtain ⟨rec'', hr'', hle⟩ := hpos hp
            rw [hst't, hr''] at hrec'
            rw [← Option.some.inj hrec']
            exact hle
          · intro hany
            rw [hst't, hnone1 hany, hrec0]
        · have hxnet : ¬ (x = t) := fun he => htnotints (he ▸ hxts)
          have hrec1 : lookupAssoc st1.topic_data x = some rec := by
            rw [hframe1 x hxnet]
            exact hrec
          obtain ⟨hmem, hany2, hnone2⟩ := hconc2 x hxts rec hrec1
          exact ⟨fun f hf hw => List.mem_append_right _ (hmem f hf hw), hany2, hnone2⟩

/-- C8: with a non-empty format set and directories creatable, one
`process_state` call succeeds, and for every topic `T` at or above
`trigger_rows`: every format whose write succeeds yields a file for `T`
(a failure of one format does not abort the others); if at least one
format succeeded, afterwards `T` holds at most `history_rows` rows
(`history_rows > 0`) or is absent (`history_rows = 0`); if no format
succeeded, `T`'s entry is unchanged (trim only after a successful write).
Topics below the trigger are untouched. -/
theorem process_state_spec (lg : RunnerLogger) (io : IOEnv) (st : RunnerState)
    (hfmt : lg.formats ≠ [])
    (hdir : ∀ t, io.dirOk t = true)
    (hnodup : (st.topic_data.map Prod.fst).Nodup) :
    ∃ st' files, process_state lg io st = .ok (st', files)
      ∧ (∀ T rec, lookupAssoc st.topic_data T = some rec →
          lg.trigger_rows ≤ rec.nrows →
           (∀ f ∈ lg.formats, io.writeOk f T = true → (T, f) ∈ files)
           ∧ (lg.formats.any (fun f => io.writeOk f T) = true →
                (lg.history_rows = 0 → lookupAssoc st'.topic_data T = none)
                ∧ (0 < lg.history_rows → ∀ rec', lookupAssoc st'.topic_data T = some rec'
                    → rec'.nrows ≤ lg.history_rows))
           ∧ (lg.formats.any (fun f => io.writeOk f T) = false →
                lookupAssoc st'.topic_data T = some rec))
      ∧ (∀ T, (∀ rec, lookupAssoc st.topic_data T = some rec →
            rec.nrows < lg.trigger_rows) →
           lookupAssoc st'.topic_data T = lookupAssoc st.topic_data T) := by
  unfold process_state
  rw [if_neg (by simpa using hfmt)]
  have htopicsnd : (st.get_topics.filter (fun t =>
      match st.rowCount t with
      | some c => decide (c ≥ lg.trigger_rows)
      | none => false)).Nodup := hnodup.filter _
  obtain ⟨st', files, heq, hframe, hnod, hconc⟩ :=
    processTopics_spec lg io _ st [] hnodup htopicsnd (fun t _ => hdir t)
  refine ⟨st', files, by simpa using heq, ?_, ?_⟩
  · intro T rec hrec htrig
    have hmem : T ∈ st.get_topics.filter (fun t =>
        match st.rowCount t with
        | some c => decide (c ≥ lg.trigger_rows)
        | none => false) := by
      apply List.mem_filter.mpr
      refine ⟨lookupAssoc_mem_of_some _ _ _ hrec, ?_⟩
      show (match st.rowCount T with
        | some c => decide (c ≥ lg.trigger_rows)
        | none => false) = true
      unfold RunnerState.rowCount
      rw [hrec]
      simpa using htrig
    exact hconc T hmem rec hrec
  · intro T hsmall
    apply hframe
    intro hmem
    have h2 := (List.mem_filter.mp hmem).2
    cases hrc : lookupAssoc st.topic_data T with
    | none =>
      have hfalse : (match st.rowCount T with
          | some c => decide (c ≥ lg.trigger_rows)
          | none => false) = false := by
        unfold RunnerState.rowCount
        rw [hrc]
        rfl
      rw [hfalse] at h2
      cases h2
    | some rec =>
      have hlt := hsmall rec hrc
      have hfalse : (match st.rowCount T with
          | some c => decide (c ≥ lg.trigger_rows)
          | none => false) = false := by
        unfold RunnerState.rowCount
        rw [hrc]
        show decide (rec.nrows ≥ lg.trigger_rows) = false
        simp only [decide_eq_false_iff_not]
        omega
      rw [hfalse] at h2
      cases h2

/-- C8 (witness): trigger 3, history 1, parquet only, all I/O succeeding:
the 3-row topic gets a file and is trimmed to at most one row. -/
theorem process_state_spec_witness :
    ∃ st' files, process_state ⟨3, 1, [OutputFormat.Parquet]⟩
        ⟨fun _ => true, fun _ _ => true⟩ ⟨[("t/a", recThreeRows)]⟩ = .ok (st', files)
      ∧ ("t/a", OutputFormat.Parquet) ∈ files
      ∧ ∀ rec', lookupAssoc st'.topic_data "t/a" = some rec' → rec'.nrows ≤ 1 := by
  obtain ⟨st', files, heq, htrig, _⟩ := process_state_spec ⟨3, 1, [.Parquet]⟩
      ⟨fun _ => true, fun _ _ => true⟩ ⟨[("t/a", recThreeRows)]⟩
      (by decide) (fun t => rfl) (by decide)
  obtain ⟨hmem, hany, _⟩ := htrig "t/a" recThreeRows (by decide) (by decide)
  refine ⟨st', files, heq, hmem .Parquet (by decide) rfl, ?_⟩
  intro rec' h
  exact (hany (by rfl)).2 (by decide) rec' h

end Devore
